import Mathlib

/-!
Verification of the resource-lifecycle core of the `simple-vulkan` repository:
the generational object pool (`sv/object_pool.hpp`), the staging allocator
(`sv/staging_allocator.cpp`), and the bindless descriptor table
(`sv/bindless.hpp`).  Machine integers are modelled as `Nat` with explicit
`% 2^32` where 32-bit wraparound is semantically relevant (generation
counters, the power-of-two rounding).  Slot indices are modelled as
unbounded naturals; theorems that depend on the 32-bit index space carry an
explicit bound below `npos = 2^32 - 1`.
-/

set_option maxHeartbeats 1000000

namespace SV

/-- 2^32, the modulus of the 32-bit unsigned arithmetic used by the code. -/
def U32 : Nat := 4294967296

/-- `std::numeric_limits of uint32_t max`, the sentinel the pool calls `npos`. -/
def npos : Nat := 4294967295

/-- `invalid_generation` from `object_handle.hpp`: generation 0 is reserved. -/
def invalid_generation : Nat := 0

/-- `detail::bump_generation`: increment modulo 2^32, skipping the reserved
value 0 on wraparound. -/
def bump_generation (g : Nat) : Nat :=
  let g1 := (g + 1) % U32
  if g1 = invalid_generation then (g1 + 1) % U32 else g1

/-- `Handle` from `object_handle.hpp`: an index / generation pair. -/
structure Handle where
  index : Nat
  generation : Nat
deriving DecidableEq, Repr

/-- State of `Pool` from `object_pool.hpp` (the single-owner
`FreelistVector` policy).  The freelist vector is stored top-first: the
C++ `push_back` / `pop_back` stack discipline becomes cons / head. -/
structure PoolState (V : Type) where
  dense_storage : List V
  sparse_to_dense : List Nat
  dense_to_sparse : List Nat
  generations : List Nat
  freelist : List Nat
deriving Repr

/-- The empty pool (default-constructed `Pool`). -/
def PoolState.empty {V : Type} : PoolState V :=
  ⟨[], [], [], [], []⟩

section ListHelpers

lemma getD_set_self (l : List Nat) (i a d : Nat) (h : i < l.length) :
    (l.set i a).getD i d = a := by
  simp [List.getD_eq_getElem?_getD, List.getElem?_set_self, h]

lemma getD_set_ne (l : List Nat) {i j : Nat} (a d : Nat) (h : i ≠ j) :
    (l.set i a).getD j d = l.getD j d := by
  simp [List.getD_eq_getElem?_getD, List.getElem?_set_ne, h]

lemma getD_oob (l : List Nat) (i d : Nat) (h : l.length ≤ i) : l.getD i d = d := by
  simp [List.getD_eq_getElem?_getD, List.getElem?_eq_none h]

lemma getD_append_left (l : List Nat) (i d a : Nat) (h : i < l.length) :
    (l ++ [a]).getD i d = l.getD i d := by
  simp [List.getD_eq_getElem?_getD, List.getElem?_append_left h]

lemma getD_append_right (l : List Nat) (d a : Nat) : (l ++ [a]).getD l.length d = a := by
  simp [List.getD_eq_getElem?_getD]

lemma getD_append_right' (l : List Nat) (i d a : Nat) (h : i = l.length) :
    (l ++ [a]).getD i d = a := by
  subst h
  exact getD_append_right l d a

end ListHelpers

section BumpLemmas

lemma bump_ne (g : Nat) : bump_generation g ≠ g := by
  unfold bump_generation U32 invalid_generation
  dsimp only
  split <;> omega

lemma bump_ne_zero (g : Nat) : bump_generation g ≠ invalid_generation := by
  unfold bump_generation U32 invalid_generation
  dsimp only
  split <;> omega

lemma bump_lt_u32 (g : Nat) : bump_generation g < U32 := by
  unfold bump_generation U32 invalid_generation
  dsimp only
  split <;> omega

lemma bump_eq_succ (g : Nat) (h : g + 1 < U32) : bump_generation g = g + 1 := by
  unfold bump_generation U32 invalid_generation
  unfold U32 at h
  dsimp only
  split <;> omega

end BumpLemmas

namespace PoolState

variable {V : Type}

/-- `FreelistVector::pop`: returns `npos` when the stack is empty. -/
def fl_pop (fl : List Nat) : Nat × List Nat :=
  match fl with
  | [] => (npos, [])
  | v :: rest => (v, rest)

/-- `load_generation` (non-atomic policy): plain read of `generations[idx]`. -/
def load_generation (s : PoolState V) (idx : Nat) : Nat :=
  s.generations.getD idx 0

/-- `store_generation` (non-atomic policy): plain write of `generations[idx]`. -/
def store_generation (s : PoolState V) (idx v : Nat) : PoolState V :=
  { s with generations := s.generations.set idx v }

/-- `Pool::acquire_index`: pop the freelist; on `npos` grow all parallel
sparse arrays by one slot with generation `invalid_generation`. -/
def acquire_index (s : PoolState V) : Nat × PoolState V :=
  let p := fl_pop s.freelist
  if p.1 ≠ npos then (p.1, { s with freelist := p.2 })
  else
    let new_idx := s.generations.length
    (new_idx,
      { s with
        freelist := p.2
        generations := s.generations ++ [invalid_generation]
        sparse_to_dense := s.sparse_to_dense ++ [npos]
        dense_to_sparse := s.dense_to_sparse ++ [npos] })

/-- `Pool::ensure_live_generation`: bump a slot generation out of the
reserved value if needed. -/
def ensure_live_generation (s : PoolState V) (idx : Nat) : PoolState V :=
  if s.load_generation idx = invalid_generation then
    s.store_generation idx (bump_generation (s.load_generation idx))
  else s

/-- `Pool::retire_index`: bump the generation, unmap the slot, push it on
the freelist. -/
def retire_index (s : PoolState V) (idx : Nat) : PoolState V :=
  let s1 := s.store_generation idx (bump_generation (s.load_generation idx))
  { s1 with
    sparse_to_dense := s1.sparse_to_dense.set idx npos
    freelist := idx :: s1.freelist }

/-- `Pool::emplace` (also `Pool::insert`, which differs only in how the
value is passed): acquire a slot, append to dense storage, link the
sparse / dense maps, make the generation live, return the handle. -/
def emplace (s : PoolState V) (v : V) : Handle × PoolState V :=
  let a := s.acquire_index
  let idx := a.1
  let s1 := a.2
  let dense_i := s1.dense_storage.length
  let s2 :=
    { s1 with
      dense_storage := s1.dense_storage ++ [v]
      dense_to_sparse := s1.dense_to_sparse.set dense_i idx
      sparse_to_dense := s1.sparse_to_dense.set idx dense_i }
  let s3 := s2.ensure_live_generation idx
  (⟨idx, s3.load_generation idx⟩, s3)

/-- `Pool::is_valid`: in-range index, not the sentinel, currently mapped,
live generation equal to the handle generation. -/
def is_valid (s : PoolState V) (h : Handle) : Bool :=
  if s.generations.length ≤ h.index then false
  else if h.index = npos then false
  else if s.sparse_to_dense.getD h.index 0 = npos then false
  else if s.load_generation h.index = invalid_generation then false
  else decide (s.load_generation h.index = h.generation)

/-- `std::swap` of two dense-storage cells; identity when either index is
out of range (the erase path only swaps in-range cells). -/
def swap_cells (l : List V) (i j : Nat) : List V :=
  match l.get? i, l.get? j with
  | some x, some y => (l.set i y).set j x
  | _, _ => l

/-- `Pool::erase`: no-op on an invalid handle, otherwise swap-with-last
compaction of the dense array followed by `retire_index`. -/
def erase (s : PoolState V) (h : Handle) : Bool × PoolState V :=
  if ¬ s.is_valid h then (false, s)
  else
    let sp := h.index
    let d := s.sparse_to_dense.getD sp 0
    let last := s.dense_storage.length - 1
    let s1 :=
      if d ≠ last then
        let moved_s := s.dense_to_sparse.getD last 0
        { s with
          dense_storage := swap_cells s.dense_storage d last
          dense_to_sparse := s.dense_to_sparse.set d moved_s
          sparse_to_dense := s.sparse_to_dense.set moved_s d }
      else s
    let s2 := { s1 with dense_storage := s1.dense_storage.dropLast }
    (true, s2.retire_index sp)

/-- `Pool::get(handle)`: the element of a valid handle, `nullptr` → `none`. -/
def get (s : PoolState V) (h : Handle) : Option V :=
  if s.is_valid h then s.dense_storage.get? (s.sparse_to_dense.getD h.index 0)
  else none

/-- One iteration step of the loop body of `Pool::clear`. -/
def clear_step (s : PoolState V) (i : Nat) : PoolState V :=
  let s1 := s.store_generation i (bump_generation (s.load_generation i))
  { s1 with
    sparse_to_dense := s1.sparse_to_dense.set i npos
    freelist := i :: s1.freelist }

/-- `Pool::clear`: drop dense storage, then for every slot bump the
generation, unmap it and push it on the freelist.  Note the freelist is
not emptied first. -/
def clear (s : PoolState V) : PoolState V :=
  (List.range s.generations.length).foldl clear_step
    { s with dense_storage := [] }

/-- `Pool::for_each_dense`: the callback receives each dense index with the
element stored there, in dense order.  Modelled as the visited list. -/
def for_each_dense (s : PoolState V) : List (Nat × V) :=
  s.dense_storage.enum

/-- A slot is live when it is allocated and currently mapped to a dense cell. -/
def isLive (s : PoolState V) (i : Nat) : Prop :=
  i < s.generations.length ∧ s.sparse_to_dense.getD i 0 ≠ npos

instance (s : PoolState V) (i : Nat) : Decidable (s.isLive i) := by
  unfold isLive; infer_instance

/-- The slot-map invariant of §3 of the spec: parallel arrays agree in
length, every slot is either live (mapped to a dense cell, with the dense
back-reference pointing back and a non-zero generation) or dead (on the
freelist, unmapped), the freelist has no duplicates, and stored
generations are 32-bit values. -/
def Inv (s : PoolState V) : Prop :=
  s.sparse_to_dense.length = s.generations.length ∧
  s.dense_to_sparse.length = s.generations.length ∧
  s.dense_storage.length + s.freelist.length = s.generations.length ∧
  s.freelist.Nodup ∧
  (∀ i ∈ s.freelist, i < s.generations.length ∧ s.sparse_to_dense.getD i 0 = npos ∧
      s.generations.getD i 0 ≠ 0) ∧
  (∀ i < s.generations.length, s.sparse_to_dense.getD i 0 = npos → i ∈ s.freelist) ∧
  (∀ i < s.generations.length, s.sparse_to_dense.getD i 0 ≠ npos →
      s.sparse_to_dense.getD i 0 < s.dense_storage.length ∧
      s.dense_to_sparse.getD (s.sparse_to_dense.getD i 0) 0 = i ∧
      s.generations.getD i 0 ≠ 0) ∧
  (∀ d < s.dense_storage.length,
      s.dense_to_sparse.getD d 0 < s.generations.length ∧
      s.sparse_to_dense.getD (s.dense_to_sparse.getD d 0) 0 = d) ∧
  (∀ i < s.generations.length, s.generations.getD i 0 < U32)

instance (s : PoolState V) : Decidable (s.Inv) := by
  unfold Inv; infer_instance

lemma inv_empty : (PoolState.empty (V := V)).Inv := by
  unfold Inv PoolState.empty
  refine ⟨rfl, rfl, rfl, List.nodup_nil, ?_, ?_, ?_, ?_, ?_⟩ <;> intros <;> simp_all

lemma length_swap_cells (l : List V) (i j : Nat) : (swap_cells l i j).length = l.length := by
  unfold swap_cells
  split <;> simp

/-- Explicit form of `emplace` when the freelist is empty: all parallel
arrays grow by one fresh slot. -/
lemma emplace_eq_grow (s : PoolState V) (v : V) (hfl : s.freelist = []) :
    s.emplace v = (⟨s.generations.length, bump_generation invalid_generation⟩,
      { dense_storage := s.dense_storage ++ [v]
        sparse_to_dense :=
          (s.sparse_to_dense ++ [npos]).set s.generations.length s.dense_storage.length
        dense_to_sparse :=
          (s.dense_to_sparse ++ [npos]).set s.dense_storage.length s.generations.length
        generations := (s.generations ++ [invalid_generation]).set s.generations.length
          (bump_generation invalid_generation)
        freelist := [] }) := by
  unfold emplace acquire_index ensure_live_generation load_generation store_generation fl_pop
  rw [hfl]
  have hg : (s.generations ++ [invalid_generation])[s.generations.length]?.getD 0 =
      invalid_generation := by simp
  simp [hg, List.getElem?_set_self]

/-- Explicit form of `emplace` when the freelist pops a retired slot with a
live (non-zero) generation. -/
lemma emplace_eq_pop (s : PoolState V) (v : V) (idx : Nat) (rest : List Nat)
    (hfl : s.freelist = idx :: rest) (hidx : idx ≠ npos)
    (hg : s.generations.getD idx 0 ≠ invalid_generation) :
    s.emplace v = (⟨idx, s.generations.getD idx 0⟩,
      { dense_storage := s.dense_storage ++ [v]
        sparse_to_dense := s.sparse_to_dense.set idx s.dense_storage.length
        dense_to_sparse := s.dense_to_sparse.set s.dense_storage.length idx
        generations := s.generations
        freelist := rest }) := by
  unfold emplace acquire_index ensure_live_generation load_generation store_generation fl_pop
  rw [hfl]
  rw [List.getD_eq_getElem?_getD] at hg
  simp [hidx, hg]

/-- Explicit form of a valid `erase` when the erased slot maps to the last
dense cell (no swap needed). -/
lemma erase_eq_of_valid_last (s : PoolState V) (h : Handle) (hv : s.is_valid h = true)
    (hd : s.sparse_to_dense.getD h.index 0 = s.dense_storage.length - 1) :
    s.erase h = (true,
      { dense_storage := s.dense_storage.dropLast
        sparse_to_dense := s.sparse_to_dense.set h.index npos
        dense_to_sparse := s.dense_to_sparse
        generations :=
          s.generations.set h.index (bump_generation (s.generations.getD h.index 0))
        freelist := h.index :: s.freelist }) := by
  unfold erase retire_index store_generation load_generation
  rw [List.getD_eq_getElem?_getD] at hd
  simp [hv, hd]

/-- Explicit form of a valid `erase` with swap-with-last compaction. -/
lemma erase_eq_of_valid_swap (s : PoolState V) (h : Handle) (hv : s.is_valid h = true)
    (hd : s.sparse_to_dense.getD h.index 0 ≠ s.dense_storage.length - 1) :
    s.erase h = (true,
      { dense_storage :=
          (swap_cells s.dense_storage (s.sparse_to_dense.getD h.index 0)
            (s.dense_storage.length - 1)).dropLast
        sparse_to_dense :=
          (s.sparse_to_dense.set (s.dense_to_sparse.getD (s.dense_storage.length - 1) 0)
            (s.sparse_to_dense.getD h.index 0)).set h.index npos
        dense_to_sparse :=
          s.dense_to_sparse.set (s.sparse_to_dense.getD h.index 0)
            (s.dense_to_sparse.getD (s.dense_storage.length - 1) 0)
        generations :=
          s.generations.set h.index (bump_generation (s.generations.getD h.index 0))
        freelist := h.index :: s.freelist }) := by
  unfold erase retire_index store_generation load_generation
  rw [List.getD_eq_getElem?_getD] at hd
  simp [hv, hd]

end PoolState

/-- Sequences of the operations claims C2, C3, C9 quantify over. -/
inductive EOp (V : Type) where
  | emp (v : V)
  | ers (h : Handle)

/-- Apply one emplace / erase operation, discarding the returned value. -/
def applyEOp {V : Type} (s : PoolState V) : EOp V → PoolState V
  | .emp v => (s.emplace v).2
  | .ers h => (s.erase h).2

/-- Run a sequence of emplace / erase operations on the empty pool. -/
def runE {V : Type} (ops : List (EOp V)) : PoolState V :=
  ops.foldl applyEOp PoolState.empty

/-- The full operation set of claim C1, including `insert` and `clear`. -/
inductive POp (V : Type) where
  | emp (v : V)
  | ins (v : V)
  | ers (h : Handle)
  | clr

/-- Apply one pool operation (`insert` coincides with `emplace` up to how
the value is passed). -/
def applyPOp {V : Type} (s : PoolState V) : POp V → PoolState V
  | .emp v => (s.emplace v).2
  | .ins v => (s.emplace v).2
  | .ers h => (s.erase h).2
  | .clr => s.clear

/-- Run a sequence of pool operations on the empty pool. -/
def runP {V : Type} (ops : List (POp V)) : PoolState V :=
  ops.foldl applyPOp PoolState.empty

namespace PoolState

variable {V : Type}

lemma is_valid_iff (s : PoolState V) (h : Handle) :
    s.is_valid h = true ↔
      h.index < s.generations.length ∧ h.index ≠ npos ∧
      s.sparse_to_dense.getD h.index 0 ≠ npos ∧
      s.load_generation h.index ≠ invalid_generation ∧
      s.load_generation h.index = h.generation := by
  unfold is_valid
  repeat' split
  all_goals simp_all

lemma erase_freelist_of_valid (s : PoolState V) (h : Handle) (hv : s.is_valid h = true) :
    (s.erase h).2.freelist = h.index :: s.freelist := by
  unfold erase retire_index store_generation
  simp [hv]
  split <;> simp

lemma emplace_fst_of_pop (s : PoolState V) (v : V) (idx : Nat) (rest : List Nat)
    (hfl : s.freelist = idx :: rest) (hidx : idx ≠ npos)
    (hg : s.generations.getD idx 0 ≠ invalid_generation) :
    (s.emplace v).1 = ⟨idx, s.generations.getD idx 0⟩ := by
  unfold emplace acquire_index ensure_live_generation load_generation store_generation fl_pop
  rw [hfl]
  rw [List.getD_eq_getElem?_getD] at hg
  simp [hidx, hg]


lemma is_valid_of_gen_ne (s : PoolState V) (h : Handle)
    (hne : s.load_generation h.index ≠ h.generation) : s.is_valid h = false := by
  unfold is_valid
  repeat' split
  all_goals simp_all

lemma erase_of_invalid (s : PoolState V) (h : Handle) (hv : s.is_valid h = false) :
    s.erase h = (false, s) := by
  unfold erase
  simp [hv]

lemma erase_generations (s : PoolState V) (h : Handle) :
    (s.erase h).2.generations =
      if s.is_valid h then
        s.generations.set h.index (bump_generation (s.generations.getD h.index 0))
      else s.generations := by
  unfold erase retire_index store_generation load_generation
  by_cases hv : s.is_valid h <;> simp [hv]
  split <;> simp

/-- After any `erase(h)` — including a spurious one — `is_valid(h)` is false. -/
lemma is_valid_erase_self (s : PoolState V) (h : Handle) :
    (s.erase h).2.is_valid h = false := by
  by_cases hv : s.is_valid h
  · obtain ⟨hlen, -, -, -, hgen⟩ := (is_valid_iff s h).1 hv
    apply is_valid_of_gen_ne
    unfold load_generation at hgen ⊢
    rw [erase_generations, if_pos hv, getD_set_self _ _ _ _ hlen, hgen]
    exact bump_ne _
  · rw [erase_of_invalid s h (by simpa using hv)]
    simpa using hv

lemma set_append_length (l : List Nat) (a b : Nat) : (l ++ [a]).set l.length b = l ++ [b] := by
  induction l with
  | nil => rfl
  | cons x xs ih => simp [List.set, ih]

/-- `emplace` preserves the slot-map invariant and its result handle is
valid in the post-state (the generic statement behind claims C1 and C2). -/
lemma emplace_preserves (s : PoolState V) (v : V) (hinv : s.Inv)
    (hlen : s.generations.length < npos) :
    (s.emplace v).2.Inv ∧ (s.emplace v).2.is_valid (s.emplace v).1 = true ∧
    (s.emplace v).2.generations.length ≤ s.generations.length + 1 := by
  obtain ⟨h1, h2, h3, h4, h5, h6, h7, h8, h9⟩ := hinv
  cases hfl : s.freelist with
  | nil =>
    have hm : s.dense_storage.length = s.generations.length := by
      rw [hfl] at h3; simpa using h3
    rw [emplace_eq_grow s v hfl]
    dsimp only
    set n := s.generations.length with hn
    have hs2d : (s.sparse_to_dense ++ [npos]).set n s.dense_storage.length =
        s.sparse_to_dense ++ [n] := by
      rw [hm, ← h1]; exact set_append_length _ _ _
    have hd2s : (s.dense_to_sparse ++ [npos]).set s.dense_storage.length n =
        s.dense_to_sparse ++ [n] := by
      rw [hm, ← h2]; exact set_append_length _ _ _
    have hgen : (s.generations ++ [invalid_generation]).set n
        (bump_generation invalid_generation) =
        s.generations ++ [bump_generation invalid_generation] := set_append_length _ _ _
    rw [hs2d, hd2s, hgen]
    refine ⟨⟨by simp [h1], by simp [h2], by simp [hm, hfl], List.nodup_nil, ?_, ?_, ?_,
      ?_, ?_⟩, ?_, by simp⟩
    · intro i hi; simp at hi
    · intro i hi hnp
      exfalso
      simp only [List.length_append, List.length_singleton] at hi
      rcases Nat.lt_or_ge i n with hlt | hge
      · rw [getD_append_left _ _ _ _ (by omega)] at hnp
        have := h6 i hlt hnp
        rw [hfl] at this
        simp at this
      · have hieq : i = n := by omega
        subst hieq
        rw [getD_append_right' _ _ _ _ h1.symm] at hnp
        omega
    · intro i hi hnp
      simp only [List.length_append, List.length_singleton] at hi
      rcases Nat.lt_or_ge i n with hlt | hge
      · rw [getD_append_left _ _ _ _ (by omega)] at hnp
        rw [getD_append_left _ _ _ _ (by omega : i < s.sparse_to_dense.length)]
        obtain ⟨ha, hb, hc⟩ := h7 i hlt hnp
        refine ⟨?_, ?_, ?_⟩
        · simp only [List.length_append, List.length_singleton]
          omega
        · rw [getD_append_left _ _ _ _
            (by omega : s.sparse_to_dense.getD i 0 < s.dense_to_sparse.length)]
          exact hb
        · rw [getD_append_left _ _ _ _ (by omega : i < s.generations.length)]
          exact hc
      · have hieq : i = n := by omega
        subst hieq
        rw [getD_append_right' _ _ _ _ h1.symm]
        refine ⟨?_, ?_, ?_⟩
        · simp only [List.length_append, List.length_singleton]
          omega
        · rw [getD_append_right' _ _ _ _ (by omega : (n : Nat) = s.dense_to_sparse.length)]
        · rw [getD_append_right' _ _ _ _ hn]
          exact bump_ne_zero _
    · intro dd hdd2
      simp only [List.length_append, List.length_singleton] at hdd2
      rcases Nat.lt_or_ge dd s.dense_storage.length with hlt | hge
      · rw [getD_append_left _ _ _ _ (by omega : dd < s.dense_to_sparse.length)]
        obtain ⟨ha, hb⟩ := h8 dd hlt
        refine ⟨?_, ?_⟩
        · simp only [List.length_append, List.length_singleton]
          omega
        · rw [getD_append_left _ _ _ _
            (by omega : s.dense_to_sparse.getD dd 0 < s.sparse_to_dense.length)]
          exact hb
      · have hdeq : dd = s.dense_storage.length := by omega
        subst hdeq
        rw [getD_append_right' _ _ _ _
          (by omega : s.dense_storage.length = s.dense_to_sparse.length)]
        refine ⟨by simp only [List.length_append, List.length_singleton]; omega, ?_⟩
        rw [getD_append_right' _ _ _ _ h1.symm]
        omega
    · intro i hi
      simp only [List.length_append, List.length_singleton] at hi
      rcases Nat.lt_or_ge i n with hlt | hge
      · rw [getD_append_left _ _ _ _ (by omega : i < s.generations.length)]
        exact h9 i hlt
      · have hieq : i = n := by omega
        subst hieq
        rw [getD_append_right' _ _ _ _ hn]
        exact bump_lt_u32 _
    · unfold is_valid load_generation invalid_generation
      dsimp only
      rw [getD_append_right' _ _ _ _ h1.symm, getD_append_right' _ _ _ _ hn]
      have hc1 : ¬ ((s.generations ++ [bump_generation invalid_generation]).length ≤ n) := by
        simp only [List.length_append, List.length_singleton]
        omega
      have hc2 : (n : Nat) ≠ npos := by omega
      simp [hc1, hc2]
      exact bump_ne_zero 0
  | cons idx rest =>
    have hmem := h5 idx (by rw [hfl]; exact List.mem_cons_self _ _)
    have hidx_lt : idx < s.generations.length := hmem.1
    have hidxn : idx ≠ npos := by omega
    rw [emplace_eq_pop s v idx rest hfl hidxn hmem.2.2]
    dsimp only
    set n := s.generations.length with hn
    set m := s.dense_storage.length with hm
    have hmlt : m < n := by rw [hfl] at h3; simp at h3; omega
    have hnodup : idx ∉ rest ∧ rest.Nodup := by
      rw [hfl] at h4; exact ⟨(List.nodup_cons.mp h4).1, (List.nodup_cons.mp h4).2⟩
    refine ⟨⟨by simp [h1], by simp [h2], ?_, hnodup.2, ?_, ?_, ?_, ?_, ?_⟩, ?_,
      by simp⟩
    · simp only [List.length_append, List.length_set, List.length_singleton]
      rw [hfl] at h3; simp at h3; omega
    · intro i hi
      have himem : i ∈ s.freelist := by rw [hfl]; exact List.mem_cons_of_mem _ hi
      have hine : idx ≠ i := by
        intro hcontra; exact hnodup.1 (hcontra ▸ hi)
      obtain ⟨ha, hb, hc⟩ := h5 i himem
      exact ⟨ha, by rw [getD_set_ne _ _ _ hine]; exact hb, hc⟩
    · intro i hi hnp
      simp only [List.length_set] at hi
      by_cases hie : i = idx
      · subst hie
        rw [getD_set_self _ _ _ _ (by omega : i < s.sparse_to_dense.length)] at hnp
        omega
      · rw [getD_set_ne _ _ _ (fun hcontra => hie hcontra.symm)] at hnp
        have := h6 i hi hnp
        rw [hfl] at this
        rcases List.mem_cons.mp this with hcontra | hok
        · exact absurd hcontra hie
        · exact hok
    · intro i hi hnp
      simp only [List.length_set] at hi
      by_cases hie : i = idx
      · subst hie
        rw [getD_set_self _ _ _ _ (by omega : i < s.sparse_to_dense.length)] at hnp ⊢
        refine ⟨by simp only [List.length_append, List.length_singleton]; omega, ?_,
          hmem.2.2⟩
        rw [getD_set_self _ _ _ _ (by omega : m < s.dense_to_sparse.length)]
      · rw [getD_set_ne _ _ _ (fun hcontra => hie hcontra.symm)] at hnp ⊢
        obtain ⟨ha, hb, hc⟩ := h7 i hi hnp
        refine ⟨by simp only [List.length_append, List.length_singleton]; omega, ?_, hc⟩
        rw [getD_set_ne _ _ _ (by omega : m ≠ s.sparse_to_dense.getD i 0)]
        exact hb
    · intro dd hdd2
      simp only [List.length_append, List.length_singleton] at hdd2
      by_cases hde : dd = m
      · subst hde
        rw [getD_set_self _ _ _ _ (by omega : m < s.dense_to_sparse.length)]
        refine ⟨hidx_lt, ?_⟩
        rw [getD_set_self _ _ _ _ (by omega : idx < s.sparse_to_dense.length)]
      · have hdlt : dd < m := by omega
        rw [getD_set_ne _ _ _ (fun hcontra => hde hcontra.symm)]
        obtain ⟨ha, hb⟩ := h8 dd hdlt
        refine ⟨ha, ?_⟩
        have hjne : s.dense_to_sparse.getD dd 0 ≠ idx := by
          intro hcontra
          rw [hcontra] at hb
          rw [hmem.2.1] at hb
          omega
        rw [getD_set_ne _ _ _ (fun hcontra => hjne hcontra.symm)]
        exact hb
    · intro i hi
      exact h9 i hi
    · unfold is_valid load_generation invalid_generation
      dsimp only
      rw [getD_set_self _ _ _ _ (by omega : idx < s.sparse_to_dense.length)]
      have hc1 : ¬ (s.generations.length ≤ idx) := by omega
      have hmn : (m : Nat) ≠ npos := by omega
      simp [hc1, hidxn, hmn]
      rw [← List.getD_eq_getElem?_getD]
      exact hmem.2.2

/-- `erase` preserves the slot-map invariant and never changes the number
of slots. -/
lemma erase_preserves (s : PoolState V) (h : Handle) (hinv : s.Inv)
    (hn : s.generations.length ≤ npos) :
    (s.erase h).2.Inv ∧ (s.erase h).2.generations.length = s.generations.length := by
  by_cases hv : s.is_valid h
  · obtain ⟨h1, h2, h3, h4, h5, h6, h7, h8, h9⟩ := hinv
    obtain ⟨hilen, hinp, hmap, hg0, hgeq⟩ := (is_valid_iff s h).1 hv
    unfold load_generation at hg0 hgeq
    obtain ⟨hdm, hback, hgnz⟩ := h7 h.index hilen hmap
    have hm1 : 1 ≤ s.dense_storage.length := by omega
    have hspfl : h.index ∉ s.freelist := by
      intro hcontra
      exact hmap (h5 h.index hcontra).2.1
    by_cases hd : s.sparse_to_dense.getD h.index 0 = s.dense_storage.length - 1
    · rw [erase_eq_of_valid_last s h hv hd]
      dsimp only
      set n := s.generations.length with hnn
      set m := s.dense_storage.length with hmm
      set sp := h.index with hsp
      set d := s.sparse_to_dense.getD sp 0 with hdd
      refine ⟨⟨by simp [h1], by simp [h2], ?_, ?_, ?_, ?_, ?_, ?_, ?_⟩, by simp⟩
      · simp only [List.length_dropLast, List.length_cons, List.length_set]
        omega
      · exact List.nodup_cons.mpr ⟨hspfl, h4⟩
      · intro i hi
        rcases List.mem_cons.mp hi with hie | him
        · subst hie
          refine ⟨by simp only [List.length_set]; omega, ?_, ?_⟩
          · rw [getD_set_self _ _ _ _ (by omega : sp < s.sparse_to_dense.length)]
          · rw [getD_set_self _ _ _ _ (by omega : sp < s.generations.length)]
            exact bump_ne_zero _
        · have hine : sp ≠ i := fun hcontra => hspfl (hcontra ▸ him)
          obtain ⟨ha, hb, hc⟩ := h5 i him
          refine ⟨by simp only [List.length_set]; omega, ?_, ?_⟩
          · rw [getD_set_ne _ _ _ hine]; exact hb
          · rw [getD_set_ne _ _ _ hine]; exact hc
      · intro i hi hnp
        simp only [List.length_set] at hi
        by_cases hie : i = sp
        · exact hie ▸ List.mem_cons_self _ _
        · rw [getD_set_ne _ _ _ (fun hc => hie hc.symm)] at hnp
          exact List.mem_cons_of_mem _ (h6 i hi hnp)
      · intro i hi hnp
        simp only [List.length_set] at hi
        by_cases hie : i = sp
        · exfalso
          subst hie
          rw [getD_set_self _ _ _ _ (by omega : sp < s.sparse_to_dense.length)] at hnp
          exact hnp rfl
        · rw [getD_set_ne _ _ _ (fun hc => hie hc.symm)] at hnp ⊢
          obtain ⟨ha, hb, hc⟩ := h7 i hi hnp
          have hne_last : s.sparse_to_dense.getD i 0 ≠ m - 1 := by
            intro hcontra
            have hthis : s.dense_to_sparse.getD (m - 1) 0 = i := hcontra ▸ hb
            rw [← hd] at hthis
            have hy : s.dense_to_sparse.getD d 0 = sp := hback
            rw [hy] at hthis
            exact hie hthis.symm
          refine ⟨by simp only [List.length_dropLast]; omega, hb, ?_⟩
          rw [getD_set_ne _ _ _ (fun hc => hie hc.symm)]
          exact hc
      · intro dd hdd2
        simp only [List.length_dropLast] at hdd2
        have hddm : dd < m := by omega
        obtain ⟨ha, hb⟩ := h8 dd hddm
        refine ⟨by simp only [List.length_set]; omega, ?_⟩
        have hjne : s.dense_to_sparse.getD dd 0 ≠ sp := by
          intro hcontra
          rw [hcontra] at hb
          rw [← hdd] at hb
          omega
        rw [getD_set_ne _ _ _ (fun hc => hjne hc.symm)]
        exact hb
      · intro i hi
        simp only [List.length_set] at hi
        by_cases hie : i = sp
        · subst hie
          rw [getD_set_self _ _ _ _ (by omega : sp < s.generations.length)]
          exact bump_lt_u32 _
        · rw [getD_set_ne _ _ _ (fun hc => hie hc.symm)]
          exact h9 i hi
    · rw [erase_eq_of_valid_swap s h hv hd]
      dsimp only
      set n := s.generations.length with hnn
      set m := s.dense_storage.length with hmm
      set sp := h.index with hsp
      set d := s.sparse_to_dense.getD sp 0 with hdd
      set moved := s.dense_to_sparse.getD (m - 1) 0 with hmoved
      obtain ⟨hmv_lt, hmv_back⟩ := h8 (m - 1) (by omega)
      have hlast_np : (m : Nat) - 1 ≠ npos := by omega
      have hmv_ne_sp : moved ≠ sp := by
        intro hcontra
        have hx : s.sparse_to_dense.getD sp 0 = m - 1 := by
          rw [← hcontra]
          exact hmv_back
        omega
      refine ⟨⟨by simp [h1], by simp [h2], ?_, ?_, ?_, ?_, ?_, ?_, ?_⟩, by simp⟩
      · simp only [List.length_dropLast, length_swap_cells, List.length_cons,
          List.length_set]
        omega
      · exact List.nodup_cons.mpr ⟨hspfl, h4⟩
      · intro i hi
        rcases List.mem_cons.mp hi with hie | him
        · subst hie
          refine ⟨by simp only [List.length_set]; omega, ?_, ?_⟩
          · rw [getD_set_self _ _ _ _ (by simp only [List.length_set]; omega)]
          · rw [getD_set_self _ _ _ _ (by omega : sp < s.generations.length)]
            exact bump_ne_zero _
        · have hine : sp ≠ i := fun hcontra => hspfl (hcontra ▸ him)
          obtain ⟨ha, hb, hc⟩ := h5 i him
          have hmv_ne : moved ≠ i := by
            intro hcontra
            have hx : s.sparse_to_dense.getD i 0 = m - 1 := by
              rw [← hcontra]
              exact hmv_back
            omega
          refine ⟨by simp only [List.length_set]; omega, ?_, ?_⟩
          · rw [getD_set_ne _ _ _ hine, getD_set_ne _ _ _ hmv_ne]; exact hb
          · rw [getD_set_ne _ _ _ hine]; exact hc
      · intro i hi hnp
        simp only [List.length_set] at hi
        by_cases hie : i = sp
        · exact hie ▸ List.mem_cons_self _ _
        · rw [getD_set_ne _ _ _ (fun hc => hie hc.symm)] at hnp
          by_cases hmv : i = moved
          · exfalso
            subst hmv
            rw [getD_set_self _ _ _ _ (by omega : moved < s.sparse_to_dense.length)] at hnp
            omega
          · rw [getD_set_ne _ _ _ (fun hc => hmv hc.symm)] at hnp
            exact List.mem_cons_of_mem _ (h6 i hi hnp)
      · intro i hi hnp
        simp only [List.length_set] at hi
        by_cases hie : i = sp
        · exfalso
          subst hie
          rw [getD_set_self _ _ _ _ (by simp only [List.length_set]; omega)] at hnp
          exact hnp rfl
        · rw [getD_set_ne _ _ _ (fun hc => hie hc.symm)] at hnp ⊢
          by_cases hmv : i = moved
          · subst hmv
            rw [getD_set_self _ _ _ _ (by omega : moved < s.sparse_to_dense.length)] at hnp ⊢
            refine ⟨by simp only [List.length_dropLast, length_swap_cells]; omega, ?_, ?_⟩
            · rw [getD_set_self _ _ _ _ (by omega : d < s.dense_to_sparse.length)]
            · obtain ⟨-, -, hgm⟩ := h7 moved hi (by
                have hx : s.sparse_to_dense.getD moved 0 = m - 1 := hmv_back
                omega)
              rw [getD_set_ne _ _ _ (fun hc => hie hc.symm)]
              exact hgm
          · rw [getD_set_ne _ _ _ (fun hc => hmv hc.symm)] at hnp ⊢
            obtain ⟨ha, hb, hc⟩ := h7 i hi hnp
            have hne_last : s.sparse_to_dense.getD i 0 ≠ m - 1 := by
              intro hcontra
              have hthis : s.dense_to_sparse.getD (m - 1) 0 = i := hcontra ▸ hb
              have hx : moved = i := hthis
              exact hmv hx.symm
            have hne_d : s.sparse_to_dense.getD i 0 ≠ d := by
              intro hcontra
              have hthis : s.dense_to_sparse.getD d 0 = i := hcontra ▸ hb
              have hy : s.dense_to_sparse.getD d 0 = sp := hback
              rw [hy] at hthis
              exact hie hthis.symm
            refine ⟨by simp only [List.length_dropLast, length_swap_cells]; omega, ?_, ?_⟩
            · rw [getD_set_ne _ _ _ (fun hc => hne_d hc.symm)]
              exact hb
            · rw [getD_set_ne _ _ _ (fun hc => hie hc.symm)]
              exact hc
      · intro dd hdd2
        simp only [List.length_dropLast, length_swap_cells] at hdd2
        by_cases hde : dd = d
        · subst hde
          rw [getD_set_self _ _ _ _ (by omega : d < s.dense_to_sparse.length)]
          refine ⟨by simp only [List.length_set]; omega, ?_⟩
          rw [getD_set_ne _ _ _ (fun hc => hmv_ne_sp hc.symm),
            getD_set_self _ _ _ _ (by omega : moved < s.sparse_to_dense.length)]
        · rw [getD_set_ne _ _ _ (fun hc => hde hc.symm)]
          have hddm : dd < m := by omega
          obtain ⟨ha, hb⟩ := h8 dd hddm
          have hj_ne_sp : s.dense_to_sparse.getD dd 0 ≠ sp := by
            intro hcontra
            rw [hcontra] at hb
            rw [← hdd] at hb
            exact hde hb.symm
          have hj_ne_mv : s.dense_to_sparse.getD dd 0 ≠ moved := by
            intro hcontra
            have hx : s.sparse_to_dense.getD moved 0 = dd := by
              rw [← hcontra]
              exact hb
            have hy : s.sparse_to_dense.getD moved 0 = m - 1 := hmv_back
            omega
          refine ⟨by simp only [List.length_set]; omega, ?_⟩
          rw [getD_set_ne _ _ _ (fun hc => hj_ne_sp hc.symm),
            getD_set_ne _ _ _ (fun hc => hj_ne_mv hc.symm)]
          exact hb
      · intro i hi
        simp only [List.length_set] at hi
        by_cases hie : i = sp
        · subst hie
          rw [getD_set_self _ _ _ _ (by omega : sp < s.generations.length)]
          exact bump_lt_u32 _
        · rw [getD_set_ne _ _ _ (fun hc => hie hc.symm)]
          exact h9 i hi
  · have hstate : (s.erase h).2 = s := by
      rw [erase_of_invalid s h (by simpa using hv)]
    rw [hstate]
    exact ⟨hinv, rfl⟩

end PoolState

/-- The list of sparse slots visited by `for_each_dense` through the dense
back-references, in dense order. -/
def PoolState.denseSlots {V : Type} (s : PoolState V) : List Nat :=
  (List.range s.dense_storage.length).map (fun d => s.dense_to_sparse.getD d 0)

lemma foldl_eop_inv {V : Type} (ops : List (EOp V)) (s : PoolState V) (hinv : s.Inv)
    (hbound : s.generations.length + ops.length ≤ npos) :
    (ops.foldl applyEOp s).Inv ∧
    (ops.foldl applyEOp s).generations.length ≤ s.generations.length + ops.length := by
  induction ops generalizing s with
  | nil => exact ⟨hinv, by simp⟩
  | cons op rest ih =>
    simp only [List.length_cons] at hbound
    cases op with
    | emp v =>
      have hlt : s.generations.length < npos := by omega
      obtain ⟨hinv2, -, hlen2⟩ := PoolState.emplace_preserves s v hinv hlt
      have hrec := ih (s.emplace v).2 hinv2 (by omega)
      simp only [List.foldl_cons, applyEOp]
      refine ⟨hrec.1, ?_⟩
      have := hrec.2
      simp only [List.length_cons]
      omega
    | ers hh =>
      obtain ⟨hinv2, hlen2⟩ := PoolState.erase_preserves s hh hinv (by omega)
      have hrec := ih (s.erase hh).2 hinv2 (by omega)
      simp only [List.foldl_cons, applyEOp]
      refine ⟨hrec.1, ?_⟩
      have := hrec.2
      simp only [List.length_cons]
      omega

lemma runE_inv {V : Type} (ops : List (EOp V)) (hops : ops.length ≤ npos) :
    (runE ops).Inv ∧ (runE ops).generations.length ≤ ops.length := by
  have h0 : (PoolState.empty (V := V)).generations.length + ops.length ≤ npos := by
    simpa [PoolState.empty] using hops
  have := foldl_eop_inv ops PoolState.empty PoolState.inv_empty h0
  simpa [runE, PoolState.empty] using this

lemma denseSlots_spec {V : Type} (s : PoolState V) (hinv : s.Inv)
    (hn : s.generations.length < npos) :
    s.denseSlots.Nodup ∧ (∀ i, i ∈ s.denseSlots ↔ s.isLive i) ∧
    (∀ d, d < s.dense_storage.length →
      s.get ⟨s.dense_to_sparse.getD d 0,
        s.generations.getD (s.dense_to_sparse.getD d 0) 0⟩ =
      s.dense_storage.get? d) := by
  obtain ⟨h1, h2, h3, h4, h5, h6, h7, h8, h9⟩ := hinv
  refine ⟨?_, ?_, ?_⟩
  · refine List.Nodup.map_on ?_ (List.nodup_range _)
    intro a ha b hb hf
    simp only [List.mem_range] at ha hb
    have hx := (h8 a ha).2
    rw [hf] at hx
    have hy := (h8 b hb).2
    omega
  · intro i
    constructor
    · intro hmem
      simp only [PoolState.denseSlots, List.mem_map, List.mem_range] at hmem
      obtain ⟨dd, hdd, hfd⟩ := hmem
      subst hfd
      obtain ⟨ha, hb⟩ := h8 dd hdd
      exact ⟨ha, by rw [hb]; omega⟩
    · intro hlive
      obtain ⟨hlt, hne⟩ := hlive
      obtain ⟨ha, hb, -⟩ := h7 i hlt hne
      simp only [PoolState.denseSlots, List.mem_map, List.mem_range]
      exact ⟨s.sparse_to_dense.getD i 0, ha, hb⟩
  · intro dd hdd
    obtain ⟨ha, hb⟩ := h8 dd hdd
    have hval : s.is_valid ⟨s.dense_to_sparse.getD dd 0,
        s.generations.getD (s.dense_to_sparse.getD dd 0) 0⟩ = true := by
      rw [PoolState.is_valid_iff]
      dsimp only
      have hgz := (h7 (s.dense_to_sparse.getD dd 0) ha (by rw [hb]; omega)).2.2
      exact ⟨ha, by omega, by rw [hb]; omega, hgz, rfl⟩
    unfold PoolState.get
    simp only [hval, if_true]
    rw [hb]

/-- C9: for every emplace / erase sequence, `for_each_dense` visits the
dense array in order, the visited values are exactly the dense storage,
and the dense cells are in bijection with the currently-live slots: the
back-referenced slot list has no duplicates, a slot appears in it exactly
when it is live, and the element visited at dense index `d` is exactly the
element `get` returns for the live handle of that slot. -/
theorem c9_for_each_dense_exactly_live {V : Type} (ops : List (EOp V))
    (hops : ops.length < npos) :
    (runE ops).denseSlots.Nodup ∧
    (∀ i, i ∈ (runE ops).denseSlots ↔ (runE ops).isLive i) ∧
    (runE ops).for_each_dense.map Prod.snd = (runE ops).dense_storage ∧
    (∀ d, d < (runE ops).dense_storage.length →
      (runE ops).get ⟨(runE ops).dense_to_sparse.getD d 0,
        (runE ops).generations.getD ((runE ops).dense_to_sparse.getD d 0) 0⟩ =
      (runE ops).dense_storage.get? d) := by
  obtain ⟨hinv, hlen⟩ := runE_inv ops (le_of_lt hops)
  obtain ⟨hnd, hmem, hget⟩ := denseSlots_spec (runE ops) hinv (by omega)
  exact ⟨hnd, hmem, by simp [PoolState.for_each_dense], hget⟩

/-- Witness for C9 on a concrete history with a swap-compacting erase. -/
theorem c9_witness :
    ([EOp.emp (1 : Nat), EOp.emp 2, EOp.emp 3, EOp.ers ⟨0, 1⟩] : List (EOp Nat)).length <
      npos ∧
    (runE [EOp.emp (1 : Nat), EOp.emp 2, EOp.emp 3, EOp.ers ⟨0, 1⟩]).denseSlots.Nodup ∧
    ((2 : Nat) ∈ (runE [EOp.emp (1 : Nat), EOp.emp 2, EOp.emp 3,
      EOp.ers ⟨0, 1⟩]).denseSlots ↔
      (runE [EOp.emp (1 : Nat), EOp.emp 2, EOp.emp 3, EOp.ers ⟨0, 1⟩]).isLive 2) := by
  have hlen : ([EOp.emp (1 : Nat), EOp.emp 2, EOp.emp 3,
      EOp.ers ⟨0, 1⟩] : List (EOp Nat)).length < npos := by decide
  have hall := c9_for_each_dense_exactly_live
    [EOp.emp (1 : Nat), EOp.emp 2, EOp.emp 3, EOp.ers ⟨0, 1⟩] hlen
  exact ⟨hlen, hall.1, hall.2.1 2⟩

/-- C2: after any emplace / erase history, the handle returned by `emplace`
is valid immediately, and immediately after any `erase(h)` call (valid or
spurious) `is_valid(h)` is false. -/
theorem c2_emplace_valid_erase_invalid {V : Type} (ops : List (EOp V))
    (hops : ops.length < npos) (v : V) (h : Handle) :
    ((runE ops).emplace v).2.is_valid ((runE ops).emplace v).1 = true ∧
    ((runE ops).erase h).2.is_valid h = false := by
  obtain ⟨hinv, hlen⟩ := runE_inv ops (le_of_lt hops)
  exact ⟨(PoolState.emplace_preserves (runE ops) v hinv (by omega)).2.1,
    PoolState.is_valid_erase_self (runE ops) h⟩

/-- Witness for C2 on a concrete history. -/
theorem c2_witness :
    ([EOp.emp (7 : Nat), EOp.ers ⟨0, 1⟩] : List (EOp Nat)).length < npos ∧
    ((runE [EOp.emp (7 : Nat), EOp.ers ⟨0, 1⟩]).emplace 9).2.is_valid
      ((runE [EOp.emp (7 : Nat), EOp.ers ⟨0, 1⟩]).emplace 9).1 = true ∧
    ((runE [EOp.emp (7 : Nat), EOp.ers ⟨0, 1⟩]).erase ⟨0, 1⟩).2.is_valid ⟨0, 1⟩ =
      false := by
  have hlen : ([EOp.emp (7 : Nat), EOp.ers ⟨0, 1⟩] : List (EOp Nat)).length < npos := by
    decide
  have hall := c2_emplace_valid_erase_invalid [EOp.emp (7 : Nat), EOp.ers ⟨0, 1⟩]
    hlen 9 ⟨0, 1⟩
  exact ⟨hlen, hall.1, hall.2⟩

/-- C3: erasing a valid handle and re-emplacing into the freed slot yields
the same index with the generation advanced by `bump_generation`; the new
handle never equals the previous occupant's handle, its generation is never
the reserved value 0, and away from 32-bit wraparound the generation
strictly increases. -/
theorem c3_generation_strictly_increases {V : Type} (s : PoolState V) (h : Handle) (v : V)
    (hv : s.is_valid h = true) :
    (((s.erase h).2.emplace v).1.index = h.index ∧
      ((s.erase h).2.emplace v).1.generation = bump_generation h.generation) ∧
    ((s.erase h).2.emplace v).1 ≠ h ∧
    ((s.erase h).2.emplace v).1.generation ≠ invalid_generation ∧
    (h.generation + 1 < U32 → h.generation < ((s.erase h).2.emplace v).1.generation) := by
  obtain ⟨hlen, hnpos, hmap, hg0, hgeq⟩ := (PoolState.is_valid_iff s h).1 hv
  unfold PoolState.load_generation at hgeq hg0
  have hgen' : (s.erase h).2.generations.getD h.index 0 = bump_generation h.generation := by
    rw [PoolState.erase_generations, if_pos hv, getD_set_self _ _ _ _ hlen, hgeq]
  have hfst := PoolState.emplace_fst_of_pop (s.erase h).2 v h.index (s.freelist)
    (PoolState.erase_freelist_of_valid s h hv) hnpos
    (by rw [hgen']; exact bump_ne_zero _)
  rw [hfst, hgen']
  refine ⟨⟨rfl, rfl⟩, ?_, bump_ne_zero _, ?_⟩
  · intro hcontra
    exact bump_ne h.generation (congrArg Handle.generation hcontra)
  · intro hlt
    dsimp only
    rw [bump_eq_succ h.generation hlt]
    omega

/-- Witness for C3 at a concrete pool: one emplace, then erase and
re-emplace of the returned handle. -/
theorem c3_witness :
    ((PoolState.empty.emplace (10 : Nat)).2.is_valid ⟨0, 1⟩ = true) ∧
    ((((PoolState.empty.emplace (10 : Nat)).2.erase ⟨0, 1⟩).2.emplace 20).1.index = 0 ∧
      (((((PoolState.empty.emplace (10 : Nat)).2.erase ⟨0, 1⟩).2.emplace 20).1.generation =
        bump_generation 1))) ∧
    ((((PoolState.empty.emplace (10 : Nat)).2.erase ⟨0, 1⟩).2.emplace 20).1 ≠ ⟨0, 1⟩) := by
  have hv : (PoolState.empty.emplace (10 : Nat)).2.is_valid ⟨0, 1⟩ = true := by decide
  have := c3_generation_strictly_increases (PoolState.empty.emplace (10 : Nat)).2 ⟨0, 1⟩ 20 hv
  exact ⟨hv, this.1, this.2.1⟩

/-- C8: a stale or out-of-range handle is a defined no-op: `get` returns
none, `erase` returns false and leaves the pool untouched, and a second
erase of the same handle leaves the pool exactly as after the first. -/
theorem c8_stale_handle_noop {V : Type} (s : PoolState V) (h h2 : Handle)
    (hv : s.is_valid h = false) :
    s.get h = none ∧ s.erase h = (false, s) ∧
    (s.erase h2).2.erase h2 = (false, (s.erase h2).2) := by
  refine ⟨?_, PoolState.erase_of_invalid s h hv,
    PoolState.erase_of_invalid _ h2 (PoolState.is_valid_erase_self s h2)⟩
  unfold PoolState.get
  simp [hv]

/-- Witness for C8 at a concrete pool: an erased handle and its double erase. -/
theorem c8_witness :
    ((PoolState.empty.emplace (7 : Nat)).2.erase ⟨0, 1⟩).2.is_valid ⟨0, 1⟩ = false ∧
    (((PoolState.empty.emplace (7 : Nat)).2.erase ⟨0, 1⟩).2.get ⟨0, 1⟩ = none ∧
      ((PoolState.empty.emplace (7 : Nat)).2.erase ⟨0, 1⟩).2.erase ⟨0, 1⟩ =
        (false, ((PoolState.empty.emplace (7 : Nat)).2.erase ⟨0, 1⟩).2)) := by
  have hv : ((PoolState.empty.emplace (7 : Nat)).2.erase ⟨0, 1⟩).2.is_valid ⟨0, 1⟩ = false := by
    decide
  have := c8_stale_handle_noop ((PoolState.empty.emplace (7 : Nat)).2.erase ⟨0, 1⟩).2
    ⟨0, 1⟩ ⟨9, 9⟩ hv
  exact ⟨hv, this.1, this.2.1⟩

/-- C1 is a code bug: `Pool::clear` never empties the freelist before
pushing every slot index, so after `clear` on a pool whose freelist already
held a retired index, that index sits on the freelist twice.  The trace
below then obtains, from `emplace`, a handle to a slot that is already
live: the two equal handles are simultaneously valid while the dense array
holds two elements for a single sparse slot (the second link write is even
out of range for `dense_to_sparse`). -/
theorem c1_clear_freelist_aliasing_bug :
    ((runP [POp.emp (10 : Nat), POp.ers ⟨0, 1⟩, POp.clr, POp.emp 20]).isLive 0) ∧
    ((runP [POp.emp (10 : Nat), POp.ers ⟨0, 1⟩, POp.clr, POp.emp 20]).emplace 30).1 = ⟨0, 3⟩ ∧
    ((runP [POp.emp (10 : Nat), POp.ers ⟨0, 1⟩, POp.clr, POp.emp 20]).emplace 20).2.is_valid
      ⟨0, 3⟩ = true ∧
    (runP [POp.emp (10 : Nat), POp.ers ⟨0, 1⟩, POp.clr, POp.emp 20, POp.emp 30]).is_valid
      ⟨0, 3⟩ = true ∧
    (runP [POp.emp (10 : Nat), POp.ers ⟨0, 1⟩, POp.clr, POp.emp 20,
      POp.emp 30]).dense_storage.length = 2 ∧
    (runP [POp.emp (10 : Nat), POp.ers ⟨0, 1⟩, POp.clr, POp.emp 20,
      POp.emp 30]).generations.length = 1 := by
  decide


/-! ## Staging allocator (`sv/staging_allocator.cpp`) -/

/-- The 256 MB constant `max_staging_buffer_size` from `staging_allocator.cpp`. -/
def maxStagingBufferSize : Nat := 268435456

/-- `staging_buffer_alignment` from `staging_allocator.hpp`. -/
def stagingBufferAlignment : Nat := 16

/-- Modelled from the spec: `get_aligned_size` is declared and used by the
source but its definition is not under `src/`; per the spec's aligned
requests it rounds up to the next multiple of the alignment. -/
def get_aligned_size (size alignment : Nat) : Nat :=
  ((size + alignment - 1) / alignment) * alignment

/-- `StagingAllocator::MemoryRegionDescription`; the `SubmitHandle` is an
opaque completion token, `none` standing for the default (empty) handle. -/
structure MemoryRegionDescription where
  offset : Nat
  size : Nat
  handle : Option Nat
deriving DecidableEq, Repr

/-- The state of `StagingAllocator`.  `next_token` and `completed` model
the external submission service (`ImmediateCommands`, declared but not
under `src/`): tokens are issued in submission order and, per spec §5,
complete FIFO, so the completed set is a watermark. -/
structure StagingState where
  buffer_present : Bool
  staging_buffer_size : Nat
  staging_buffer_count : Nat
  min_buffer_size : Nat
  max_buffer_size : Nat
  regions : List MemoryRegionDescription
  next_token : Nat
  completed : Nat
deriving DecidableEq, Repr

namespace StagingState

/-- Modelled from the spec: `ImmediateCommands::is_ready` is not under
`src/`; a default (empty) handle is ready, a real token is ready once the
FIFO completion watermark has passed it. -/
def is_ready (st : StagingState) (h : Option Nat) : Bool :=
  match h with
  | none => true
  | some t => decide (t < st.completed)

/-- The `StagingAllocator` constructor: clamps `max_buffer_size` to the
device allocation limit and the 256 MB cap, and `min_buffer_size`
(default `4 * 2048 * 2048`) to `max_buffer_size`. -/
def mkStaging (device_max_allocation : Nat) : StagingState :=
  let maxb := min device_max_allocation maxStagingBufferSize
  { buffer_present := false
    staging_buffer_size := 0
    staging_buffer_count := 0
    min_buffer_size := min 16777216 maxb
    max_buffer_size := maxb
    regions := []
    next_token := 0
    completed := 0 }

/-- `StagingAllocator::wait_and_reset`: wait on every outstanding region
token (with FIFO completion, the watermark reaches every issued token),
then reset the region list to one region spanning the whole buffer. -/
def wait_and_reset (st : StagingState) : StagingState :=
  { st with
    completed := st.next_token
    regions := [⟨0, st.staging_buffer_size, none⟩] }

/-- `StagingAllocator::ensure_size`: clamp the request to
`[min_buffer_size, 256MB]`, keep the current buffer when it is big enough
or already at the 256 MB cap, otherwise wait, replace the buffer and reset
the regions.  Note the clamp uses the `max_staging_buffer_size` constant,
not the device-derived `max_buffer_size` member. -/
def ensure_size (st : StagingState) (size_needed : Nat) : StagingState :=
  let aligned := max (get_aligned_size size_needed stagingBufferAlignment) st.min_buffer_size
  let found := if aligned < maxStagingBufferSize then aligned else maxStagingBufferSize
  if st.buffer_present = true ∧
      (found ≤ st.staging_buffer_size ∨ st.staging_buffer_size = maxStagingBufferSize) then
    st
  else
    let st1 := wait_and_reset st
    { st1 with
      buffer_present := true
      staging_buffer_size := found
      staging_buffer_count := st1.staging_buffer_count + 1
      regions := [⟨0, found, none⟩] }

/-- The scan of `get_next_free_offset`: index and value of the first ready
region large enough for the request. -/
def find_first_fit (st : StagingState) (req : Nat) :
    List MemoryRegionDescription → Option (Nat × MemoryRegionDescription)
  | [] => none
  | r :: rest =>
    if st.is_ready r.handle = true ∧ req ≤ r.size then some (0, r)
    else (find_first_fit st req rest).map (fun p => (p.1 + 1, p.2))

/-- The `best_next_iterator` fold of `get_next_free_offset`: starting from
the first region (ready or not), move to any ready region strictly larger
than the current candidate. -/
def loop_best (st : StagingState) :
    List MemoryRegionDescription → Nat → Nat × MemoryRegionDescription →
    Nat × MemoryRegionDescription
  | [], _, best => best
  | r :: rest, k, best =>
    if st.is_ready r.handle = true ∧ best.2.size < r.size then
      loop_best st rest (k + 1) (k, r)
    else loop_best st rest (k + 1) best

/-- The blocking tail of `get_next_free_offset`: wait for the whole buffer,
then hand out `[0, req)` keeping the remainder. -/
def blocking_alloc (st : StagingState) (req : Nat) :
    MemoryRegionDescription × StagingState :=
  let st1 := wait_and_reset st
  let unused := if req < st1.staging_buffer_size then st1.staging_buffer_size - req else 0
  let regions1 : List MemoryRegionDescription :=
    if unused ≠ 0 then [⟨st1.staging_buffer_size - unused, unused, none⟩] else []
  (⟨0, st1.staging_buffer_size - unused, none⟩, { st1 with regions := regions1 })

/-- `StagingAllocator::get_next_free_offset`. -/
def get_next_free_offset (st0 : StagingState) (size : Nat) :
    MemoryRegionDescription × StagingState :=
  let req := get_aligned_size size stagingBufferAlignment
  let st := st0.ensure_size (req % U32)
  match find_first_fit st req st.regions with
  | some (i, r) =>
    let unused := r.size - req
    let regions1 := st.regions.eraseIdx i
    let regions2 :=
      if 0 < unused then ⟨r.offset + req, unused, none⟩ :: regions1 else regions1
    (⟨r.offset, req, none⟩, { st with regions := regions2 })
  | none =>
    match st.regions with
    | [] => blocking_alloc st req
    | r0 :: _ =>
      let best := loop_best st st.regions 0 (0, r0)
      if st.is_ready best.2.handle = true then
        (⟨best.2.offset, best.2.size, none⟩,
          { st with regions := st.regions.eraseIdx best.1 })
      else blocking_alloc st req

/-- One upload chunk as performed by `StagingAllocator::upload`: obtain a
region, record the copy, submit it (receiving the next FIFO token) and
push the region descriptor back with that token. -/
def alloc_push (st : StagingState) (size : Nat) : StagingState :=
  let p := st.get_next_free_offset size
  { p.2 with
    regions := p.2.regions ++ [⟨p.1.offset, p.1.size, some p.2.next_token⟩]
    next_token := p.2.next_token + 1 }

/-- GPU progress: the completion watermark advances by one (never past the
last issued token). -/
def complete_one (st : StagingState) : StagingState :=
  { st with completed := min (st.completed + 1) st.next_token }

end StagingState

/-- The operations the staging claims quantify over: an upload chunk of a
given size, or one step of GPU completion progress. -/
inductive StagingOp where
  | alloc (size : Nat)
  | complete

def applyStagingOp (st : StagingState) : StagingOp → StagingState
  | .alloc size => st.alloc_push size
  | .complete => st.complete_one

/-- Run a sequence of staging operations on a freshly constructed
allocator for a device with the given maximum allocation size. -/
def runStaging (device_max : Nat) (ops : List StagingOp) : StagingState :=
  ops.foldl applyStagingOp (StagingState.mkStaging device_max)


/-! ## Staging allocator invariant -/

/-- Two regions occupy disjoint byte ranges (symmetric formulation). -/
def region_disjoint (r1 r2 : MemoryRegionDescription) : Prop :=
  r1.offset + r1.size ≤ r2.offset ∨ r2.offset + r2.size ≤ r1.offset

lemma region_disjoint_symm {r1 r2 : MemoryRegionDescription}
    (h : region_disjoint r1 r2) : region_disjoint r2 r1 := h.symm

/-- Submission order on regions: default handles precede everything,
tokens precede strictly larger tokens. -/
def tok_before (r1 r2 : MemoryRegionDescription) : Prop :=
  r1.handle = none ∨ (∃ a b, r1.handle = some a ∧ r2.handle = some b ∧ a < b)

/-- The staging allocator invariant: the watermark never passes the token
counter, the buffer respects the 256 MB cap, all regions lie inside the
buffer, carried tokens were issued, regions appear in submission order
(default handles first), and regions are pairwise byte-disjoint. -/
def SInv (st : StagingState) : Prop :=
  st.completed ≤ st.next_token ∧
  st.staging_buffer_size ≤ maxStagingBufferSize ∧
  (∀ r ∈ st.regions, r.offset + r.size ≤ st.staging_buffer_size) ∧
  (∀ r ∈ st.regions, ∀ t, r.handle = some t → t < st.next_token) ∧
  st.regions.Pairwise tok_before ∧
  st.regions.Pairwise region_disjoint

lemma get?_mem_of_pairwise {R : MemoryRegionDescription → MemoryRegionDescription → Prop}
    (hsym : ∀ a b, R a b → R b a) :
    ∀ (l : List MemoryRegionDescription) (i : Nat) (r : MemoryRegionDescription),
      l.get? i = some r → l.Pairwise R → ∀ q ∈ l.eraseIdx i, R r q
  | [], i, r, hget, _, q, hq => by simp at hget
  | x :: xs, 0, r, hget, hp, q, hq => by
    simp at hget
    subst hget
    simp only [List.eraseIdx] at hq
    exact (List.pairwise_cons.mp hp).1 q hq
  | x :: xs, (k + 1), r, hget, hp, q, hq => by
    simp only [List.get?] at hget
    simp only [List.eraseIdx] at hq
    rcases List.mem_cons.mp hq with hqx | hqrest
    · subst hqx
      have hrmem : r ∈ xs := List.get?_mem hget
      exact hsym _ _ ((List.pairwise_cons.mp hp).1 r hrmem)
    · exact get?_mem_of_pairwise hsym xs k r hget (List.pairwise_cons.mp hp).2 q hqrest

lemma find_first_fit_spec (st : StagingState) (req : Nat) :
    ∀ (l : List MemoryRegionDescription) (i : Nat) (r : MemoryRegionDescription),
      StagingState.find_first_fit st req l = some (i, r) →
      l.get? i = some r ∧ st.is_ready r.handle = true ∧ req ≤ r.size
  | [], i, r, h => by simp [StagingState.find_first_fit] at h
  | x :: xs, i, r, h => by
    unfold StagingState.find_first_fit at h
    split at h
    · simp at h
      obtain ⟨hi, hr⟩ := h
      subst hi
      subst hr
      exact ⟨rfl, by tauto, by tauto⟩
    · cases hrec : StagingState.find_first_fit st req xs with
      | none => rw [hrec] at h; simp at h
      | some p =>
        rw [hrec] at h
        simp at h
        obtain ⟨hi, hr⟩ := h
        obtain ⟨hget, hready, hsz⟩ := find_first_fit_spec st req xs p.1 p.2 (by
          rw [hrec])
        subst hr
        refine ⟨?_, hready, hsz⟩
        rw [← hi]
        simpa using hget

lemma find_first_fit_none (st : StagingState) (req : Nat) :
    ∀ (l : List MemoryRegionDescription),
      StagingState.find_first_fit st req l = none →
      ∀ r ∈ l, st.is_ready r.handle = true → r.size < req
  | [], _, r, hr => by simp at hr
  | x :: xs, h, r, hr => by
    unfold StagingState.find_first_fit at h
    split at h
    · simp at h
    · intro hready
      rcases List.mem_cons.mp hr with hrx | hrxs
      · subst hrx
        rename_i hcond
        push_neg at hcond
        exact hcond hready
      · have hxs : StagingState.find_first_fit st req xs = none := by
          cases hxx : StagingState.find_first_fit st req xs with
          | none => rfl
          | some p => rw [hxx] at h; simp at h
        exact find_first_fit_none st req xs hxs r hrxs hready

lemma loop_best_mem (st : StagingState) :
    ∀ (l : List MemoryRegionDescription) (k : Nat)
      (best : Nat × MemoryRegionDescription),
      (StagingState.loop_best st l k best).2 = best.2 ∨
      (StagingState.loop_best st l k best).2 ∈ l
  | [], k, best => Or.inl rfl
  | r :: rest, k, best => by
    unfold StagingState.loop_best
    split
    · rcases loop_best_mem st rest (k + 1) (k, r) with hcase | hcase
      · exact Or.inr (by rw [hcase]; exact List.mem_cons_self _ _)
      · exact Or.inr (List.mem_cons_of_mem _ hcase)
    · rcases loop_best_mem st rest (k + 1) best with hcase | hcase
      · exact Or.inl hcase
      · exact Or.inr (List.mem_cons_of_mem _ hcase)

lemma loop_best_ready (st : StagingState) :
    ∀ (l : List MemoryRegionDescription) (k : Nat)
      (best : Nat × MemoryRegionDescription),
      st.is_ready best.2.handle = true →
      st.is_ready (StagingState.loop_best st l k best).2.handle = true
  | [], k, best, hb => hb
  | r :: rest, k, best, hb => by
    unfold StagingState.loop_best
    split
    · rename_i hcond
      exact loop_best_ready st rest (k + 1) (k, r) hcond.1
    · exact loop_best_ready st rest (k + 1) best hb

lemma loop_best_ge (st : StagingState) :
    ∀ (l : List MemoryRegionDescription) (k : Nat)
      (best : Nat × MemoryRegionDescription),
      best.2.size ≤ (StagingState.loop_best st l k best).2.size
  | [], k, best => le_refl _
  | r :: rest, k, best => by
    unfold StagingState.loop_best
    split
    · rename_i hcond
      have := loop_best_ge st rest (k + 1) (k, r)
      simp at this
      omega
    · exact loop_best_ge st rest (k + 1) best

lemma loop_best_max (st : StagingState) :
    ∀ (l : List MemoryRegionDescription) (k : Nat)
      (best : Nat × MemoryRegionDescription),
      ∀ r ∈ l, st.is_ready r.handle = true →
        r.size ≤ (StagingState.loop_best st l k best).2.size
  | [], k, best, r, hr => by simp at hr
  | x :: rest, k, best, r, hr => by
    intro hready
    unfold StagingState.loop_best
    rcases List.mem_cons.mp hr with hrx | hrrest
    · subst hrx
      split
      · have := loop_best_ge st rest (k + 1) (k, r)
        simp at this
        omega
      · rename_i hcond
        push_neg at hcond
        have hle : r.size ≤ best.2.size := by
          by_contra hgt
          exact absurd (hcond hready) (by omega)
        have := loop_best_ge st rest (k + 1) best
        omega
    · split
      · exact loop_best_max st rest (k + 1) (k, x) r hrrest hready
      · exact loop_best_max st rest (k + 1) best r hrrest hready

lemma loop_best_no_update (st : StagingState) :
    ∀ (l : List MemoryRegionDescription) (k : Nat)
      (best : Nat × MemoryRegionDescription),
      (∀ r ∈ l, st.is_ready r.handle = false) →
      StagingState.loop_best st l k best = best
  | [], k, best, _ => rfl
  | r :: rest, k, best, h => by
    unfold StagingState.loop_best
    have hr := h r (List.mem_cons_self _ _)
    rw [if_neg (by simp [hr])]
    exact loop_best_no_update st rest (k + 1) best
      (fun q hq => h q (List.mem_cons_of_mem _ hq))


lemma sinv_mk (dm : Nat) : SInv (StagingState.mkStaging dm) := by
  unfold SInv StagingState.mkStaging
  refine ⟨le_refl _, ?_, ?_, ?_, ?_, ?_⟩ <;> simp

lemma sinv_ensure (st : StagingState) (x : Nat) (hs : SInv st) :
    SInv (st.ensure_size x) ∧ (st.ensure_size x).next_token = st.next_token ∧
    st.completed ≤ (st.ensure_size x).completed := by
  obtain ⟨s1, s2, s3, s4, s5, s6⟩ := hs
  unfold StagingState.ensure_size StagingState.wait_and_reset
  dsimp only
  split
  all_goals split
  · exact ⟨⟨s1, s2, s3, s4, s5, s6⟩, rfl, le_refl _⟩
  · rename_i hlt hcond
    refine ⟨⟨le_refl _, by dsimp only; omega, ?_, ?_, by simp, by simp⟩, rfl, s1⟩
    · intro r hr
      simp at hr
      subst hr
      simp
    · intro r hr t ht
      simp at hr
      subst hr
      simp at ht
  · exact ⟨⟨s1, s2, s3, s4, s5, s6⟩, rfl, le_refl _⟩
  · refine ⟨⟨le_refl _, le_refl _, ?_, ?_, by simp, by simp⟩, rfl, s1⟩
    · intro r hr
      simp at hr
      subst hr
      simp
    · intro r hr t ht
      simp at hr
      subst hr
      simp at ht

lemma sinv_blocking (st : StagingState) (req : Nat) (hs : SInv st) :
    SInv (st.blocking_alloc req).2 ∧
    (st.blocking_alloc req).1.offset + (st.blocking_alloc req).1.size ≤
      (st.blocking_alloc req).2.staging_buffer_size ∧
    (∀ q ∈ (st.blocking_alloc req).2.regions, region_disjoint (st.blocking_alloc req).1 q) ∧
    (st.blocking_alloc req).2.next_token = st.next_token ∧
    (st.blocking_alloc req).2.staging_buffer_size = st.staging_buffer_size := by
  obtain ⟨s1, s2, s3, s4, s5, s6⟩ := hs
  unfold StagingState.blocking_alloc StagingState.wait_and_reset
  dsimp only
  by_cases hreq : req < st.staging_buffer_size
  · rw [if_pos hreq]
    by_cases hz : st.staging_buffer_size - req ≠ 0
    · rw [if_pos hz]
      refine ⟨⟨le_refl _, s2, ?_, ?_, by simp, by simp⟩, ?_, ?_, rfl, rfl⟩
      · intro r hr
        simp at hr
        subst hr
        dsimp only
        omega
      · intro r hr t ht
        simp at hr
        subst hr
        simp at ht
      · dsimp only
        omega
      · intro q hq
        simp at hq
        subst hq
        unfold region_disjoint
        dsimp only
        omega
    · rw [if_neg hz]
      refine ⟨⟨le_refl _, s2, ?_, ?_, by simp, by simp⟩, ?_, ?_, rfl, rfl⟩
      · intro r hr
        simp at hr
      · intro r hr t ht
        simp at hr
      · dsimp only
        omega
      · intro q hq
        simp at hq
  · rw [if_neg hreq]
    rw [if_neg (by simp)]
    refine ⟨⟨le_refl _, s2, ?_, ?_, by simp, by simp⟩, ?_, ?_, rfl, rfl⟩
    · intro r hr
      simp at hr
    · intro r hr t ht
      simp at hr
    · dsimp only
      omega
    · intro q hq
      simp at hq

lemma loop_best_get (st : StagingState) (L : List MemoryRegionDescription) :
    ∀ (l : List MemoryRegionDescription) (k : Nat)
      (best : Nat × MemoryRegionDescription),
      l = L.drop k → L.get? best.1 = some best.2 →
      L.get? (StagingState.loop_best st l k best).1 =
        some (StagingState.loop_best st l k best).2
  | [], k, best, _, hb => hb
  | r :: rest, k, best, hl, hb => by
    unfold StagingState.loop_best
    have hk : L.get? k = some r := by
      have h0 : (L.drop k)[0]? = some r := by
        rw [← hl]
        simp
      rw [List.getElem?_drop] at h0
      rw [List.get?_eq_getElem?]
      simpa using h0
    have hrest : rest = L.drop (k + 1) := by
      have hdd : L.drop (k + 1) = (L.drop k).drop 1 := by
        rw [List.drop_drop]
      rw [hdd, ← hl]
      simp
    split
    · exact loop_best_get st L rest (k + 1) (k, r) hrest hk
    · exact loop_best_get st L rest (k + 1) best hrest hb

lemma get_next_spec (st0 : StagingState) (size : Nat) (hs : SInv st0) :
    SInv (st0.get_next_free_offset size).2 ∧
    (st0.get_next_free_offset size).1.offset + (st0.get_next_free_offset size).1.size ≤
      (st0.get_next_free_offset size).2.staging_buffer_size ∧
    (∀ q ∈ (st0.get_next_free_offset size).2.regions,
      region_disjoint (st0.get_next_free_offset size).1 q) ∧
    (st0.get_next_free_offset size).2.next_token = st0.next_token := by
  unfold StagingState.get_next_free_offset
  dsimp only
  obtain ⟨hsE, hnE, -⟩ := sinv_ensure st0
    ((get_aligned_size size stagingBufferAlignment) % U32) hs
  set st := st0.ensure_size ((get_aligned_size size stagingBufferAlignment) % U32) with hst
  set req := get_aligned_size size stagingBufferAlignment with hreq
  obtain ⟨s1, s2, s3, s4, s5, s6⟩ := hsE
  cases hff : StagingState.find_first_fit st req st.regions with
  | some p =>
    obtain ⟨i, r⟩ := p
    obtain ⟨hget, hready, hsz⟩ := find_first_fit_spec st req st.regions i r hff
    have hrmem : r ∈ st.regions := List.get?_mem hget
    have hrb := s3 r hrmem
    have hdisj := get?_mem_of_pairwise (fun a b h => region_disjoint_symm h)
      st.regions i r hget s6
    have herase : ∀ q ∈ st.regions.eraseIdx i, q ∈ st.regions := fun q hq =>
      (List.eraseIdx_sublist st.regions i).mem hq
    dsimp only
    constructor
    · refine ⟨s1, s2, ?_, ?_, ?_, ?_⟩
      · intro q hq
        split at hq
        · rcases List.mem_cons.mp hq with hq1 | hq2
          · subst hq1
            dsimp only
            omega
          · exact s3 q (herase q hq2)
        · exact s3 q (herase q hq)
      · intro q hq t ht
        split at hq
        · rcases List.mem_cons.mp hq with hq1 | hq2
          · subst hq1
            simp at ht
          · exact s4 q (herase q hq2) t ht
        · exact s4 q (herase q hq) t ht
      · have hsub := s5.sublist (List.eraseIdx_sublist st.regions i)
        split
        · exact List.pairwise_cons.mpr ⟨fun q hq => Or.inl rfl, hsub⟩
        · exact hsub
      · have hsub := s6.sublist (List.eraseIdx_sublist st.regions i)
        split
        · refine List.pairwise_cons.mpr ⟨?_, hsub⟩
          intro q hq
          have := hdisj q hq
          unfold region_disjoint at this ⊢
          try dsimp only
          omega
        · exact hsub
    · refine ⟨by omega, ?_, hnE⟩
      intro q hq
      split at hq
      · rcases List.mem_cons.mp hq with hq1 | hq2
        · subst hq1
          unfold region_disjoint
          dsimp only
          omega
        · have := hdisj q hq2
          unfold region_disjoint at this ⊢
          dsimp only
          omega
      · have := hdisj q hq
        unfold region_disjoint at this ⊢
        dsimp only
        omega
  | none =>
    dsimp only
    cases hregs : st.regions with
    | nil =>
      obtain ⟨hb1, hb2, hb3, hb4, -⟩ := sinv_blocking st req ⟨s1, s2, s3, s4, s5, s6⟩
      exact ⟨hb1, hb2, hb3, by rw [hb4, hnE]⟩
    | cons r0 rest =>
      rw [hregs] at s3 s4 s5 s6 hff
      dsimp only
      set best := StagingState.loop_best st (r0 :: rest) 0 (0, r0) with hbest
      split
      · rename_i hbready
        have hbmem : best.2 ∈ r0 :: rest := by
          rcases loop_best_mem st (r0 :: rest) 0 (0, r0) with hcase | hcase
          · rw [← hbest] at hcase
            rw [hcase]
            exact List.mem_cons_self _ _
          · rw [← hbest] at hcase
            exact hcase
        have hbget : (r0 :: rest).get? best.1 = some best.2 := by
          rw [hbest]
          exact loop_best_get st (r0 :: rest) (r0 :: rest) 0 (0, r0) (by simp) rfl
        have hdisj := get?_mem_of_pairwise (fun a b h => region_disjoint_symm h)
          (r0 :: rest) best.1 best.2 hbget s6
        have herase : ∀ q ∈ (r0 :: rest).eraseIdx best.1, q ∈ r0 :: rest := fun q hq =>
          (List.eraseIdx_sublist (r0 :: rest) best.1).mem hq
        refine ⟨⟨s1, s2, ?_, ?_, ?_, ?_⟩, ?_, ?_, hnE⟩
        · intro q hq
          exact s3 q (herase q hq)
        · intro q hq t ht
          exact s4 q (herase q hq) t ht
        · exact s5.sublist (List.eraseIdx_sublist (r0 :: rest) best.1)
        · exact s6.sublist (List.eraseIdx_sublist (r0 :: rest) best.1)
        · have := s3 best.2 hbmem
          dsimp only
          omega
        · intro q hq
          have := hdisj q hq
          unfold region_disjoint at this ⊢
          dsimp only
          omega
      · obtain ⟨hb1, hb2, hb3, hb4, -⟩ := sinv_blocking st req ⟨s1, s2,
          by rw [hregs]; exact s3, by rw [hregs]; exact s4,
          by rw [hregs]; exact s5, by rw [hregs]; exact s6⟩
        exact ⟨hb1, hb2, hb3, by rw [hb4, hnE]⟩


lemma sinv_alloc (st : StagingState) (size : Nat) (hs : SInv st) :
    SInv (st.alloc_push size) := by
  obtain ⟨hg, hb, hdisj, hnext⟩ := get_next_spec st size hs
  obtain ⟨g1, g2, g3, g4, g5, g6⟩ := hg
  unfold StagingState.alloc_push
  dsimp only
  refine ⟨by dsimp only; omega, g2, ?_, ?_, ?_, ?_⟩
  · intro r hr
    rcases List.mem_append.mp hr with hr1 | hr2
    · exact g3 r hr1
    · simp at hr2
      subst hr2
      dsimp only
      exact hb
  · intro r hr t ht
    dsimp only
    rcases List.mem_append.mp hr with hr1 | hr2
    · have := g4 r hr1 t ht
      omega
    · simp at hr2
      subst hr2
      simp at ht
      omega
  · refine List.pairwise_append.mpr ⟨g5, List.pairwise_singleton _ _, ?_⟩
    intro a ha b hbm
    simp at hbm
    subst hbm
    cases hah : a.handle with
    | none => exact Or.inl hah
    | some t =>
      exact Or.inr ⟨t, (st.get_next_free_offset size).2.next_token, hah, rfl,
        g4 a ha t hah⟩
  · refine List.pairwise_append.mpr ⟨g6, List.pairwise_singleton _ _, ?_⟩
    intro a ha b hbm
    simp at hbm
    subst hbm
    have := hdisj a ha
    unfold region_disjoint at this ⊢
    dsimp only
    omega

lemma sinv_complete (st : StagingState) (hs : SInv st) : SInv st.complete_one := by
  obtain ⟨g1, g2, g3, g4, g5, g6⟩ := hs
  unfold StagingState.complete_one
  exact ⟨by dsimp only; omega, g2, g3, g4, g5, g6⟩

lemma runStaging_sinv (dm : Nat) (ops : List StagingOp) : SInv (runStaging dm ops) := by
  unfold runStaging
  have hgen : ∀ (l : List StagingOp) (s : StagingState), SInv s →
      SInv (l.foldl applyStagingOp s) := by
    intro l
    induction l with
    | nil => intro s hs; exact hs
    | cons op rest ih =>
      intro s hs
      simp only [List.foldl_cons]
      cases op with
      | alloc size => exact ih _ (sinv_alloc s size hs)
      | complete => exact ih _ (sinv_complete s hs)
  exact hgen ops _ (sinv_mk dm)

lemma disjoint_of_region_disjoint {r q : MemoryRegionDescription}
    (h : region_disjoint r q) :
    Disjoint (Set.Ico r.offset (r.offset + r.size))
      (Set.Ico q.offset (q.offset + q.size)) := by
  rw [Set.Ico_disjoint_Ico]
  unfold region_disjoint at h
  omega

/-- C5: after any sequence of upload-chunk allocations and GPU completion
steps, any two distinct region descriptors tracked by the allocator — in
particular any two handed-out descriptors whose submission tokens are not
yet confirmed — occupy disjoint byte ranges of the staging buffer. -/
theorem c5_staging_regions_disjoint (dm : Nat) (ops : List StagingOp) (i j : Nat)
    (hi : i < (runStaging dm ops).regions.length)
    (hj : j < (runStaging dm ops).regions.length) (hij : i ≠ j) :
    Disjoint
      (Set.Ico ((runStaging dm ops).regions.get ⟨i, hi⟩).offset
        (((runStaging dm ops).regions.get ⟨i, hi⟩).offset +
          ((runStaging dm ops).regions.get ⟨i, hi⟩).size))
      (Set.Ico ((runStaging dm ops).regions.get ⟨j, hj⟩).offset
        (((runStaging dm ops).regions.get ⟨j, hj⟩).offset +
          ((runStaging dm ops).regions.get ⟨j, hj⟩).size)) := by
  have hs := runStaging_sinv dm ops
  have hpw := hs.2.2.2.2.2
  rw [List.pairwise_iff_get] at hpw
  rcases Nat.lt_or_ge i j with hlt | hge
  · exact disjoint_of_region_disjoint (hpw ⟨i, hi⟩ ⟨j, hj⟩ hlt)
  · have hlt : j < i := by omega
    exact (disjoint_of_region_disjoint (hpw ⟨j, hj⟩ ⟨i, hi⟩ hlt)).symm

/-- Witness for C5: two in-flight upload chunks after two allocations. -/
theorem c5_witness :
    (1 : Nat) ≠ 2 ∧
    Disjoint
      (Set.Ico ((runStaging 1073741824 [StagingOp.alloc 32,
          StagingOp.alloc 32]).regions.get ⟨1, by decide⟩).offset
        (((runStaging 1073741824 [StagingOp.alloc 32,
          StagingOp.alloc 32]).regions.get ⟨1, by decide⟩).offset +
          ((runStaging 1073741824 [StagingOp.alloc 32,
          StagingOp.alloc 32]).regions.get ⟨1, by decide⟩).size))
      (Set.Ico ((runStaging 1073741824 [StagingOp.alloc 32,
          StagingOp.alloc 32]).regions.get ⟨2, by decide⟩).offset
        (((runStaging 1073741824 [StagingOp.alloc 32,
          StagingOp.alloc 32]).regions.get ⟨2, by decide⟩).offset +
          ((runStaging 1073741824 [StagingOp.alloc 32,
          StagingOp.alloc 32]).regions.get ⟨2, by decide⟩).size)) :=
  ⟨by decide, c5_staging_regions_disjoint 1073741824 [StagingOp.alloc 32,
    StagingOp.alloc 32] 1 2 (by decide) (by decide) (by decide)⟩


/-- With FIFO token completion, ready regions form a prefix: if the first
region is still pending, nothing in the list is ready. -/
lemma head_ready_of_exists (st : StagingState) (r0 : MemoryRegionDescription)
    (rest : List MemoryRegionDescription)
    (hp : (r0 :: rest).Pairwise tok_before)
    (hex : ∃ r ∈ r0 :: rest, st.is_ready r.handle = true) :
    st.is_ready r0.handle = true := by
  by_contra hnr
  obtain ⟨r, hrmem, hrready⟩ := hex
  cases hh : r0.handle with
  | none => simp [StagingState.is_ready, hh] at hnr
  | some a =>
    rw [hh] at hnr
    simp [StagingState.is_ready] at hnr
    rcases List.mem_cons.mp hrmem with hr0 | hrr
    · subst hr0
      rw [hh] at hrready
      simp [StagingState.is_ready] at hrready
      omega
    · have htb := (List.pairwise_cons.mp hp).1 r hrr
      rcases htb with h0 | ⟨a2, b, ha2, hb2, hab⟩
      · rw [hh] at h0
        simp at h0
      · rw [hh] at ha2
        simp at ha2
        rw [hb2] at hrready
        simp [StagingState.is_ready] at hrready
        omega

lemma gnf_first_fit (st : StagingState) (size i : Nat) (r : MemoryRegionDescription)
    (hens : st.ensure_size ((get_aligned_size size stagingBufferAlignment) % U32) = st)
    (hff : StagingState.find_first_fit st (get_aligned_size size stagingBufferAlignment)
      st.regions = some (i, r)) :
    (st.get_next_free_offset size).1 =
      ⟨r.offset, get_aligned_size size stagingBufferAlignment, none⟩ ∧
    (st.get_next_free_offset size).2.regions =
      (if 0 < r.size - get_aligned_size size stagingBufferAlignment then
        (⟨r.offset + get_aligned_size size stagingBufferAlignment,
          r.size - get_aligned_size size stagingBufferAlignment, none⟩ :
          MemoryRegionDescription) :: st.regions.eraseIdx i
      else st.regions.eraseIdx i) := by
  unfold StagingState.get_next_free_offset
  dsimp only
  rw [hens, hff]
  exact ⟨rfl, rfl⟩

lemma gnf_best (st : StagingState) (size : Nat) (r0 : MemoryRegionDescription)
    (rest : List MemoryRegionDescription)
    (hens : st.ensure_size ((get_aligned_size size stagingBufferAlignment) % U32) = st)
    (hff : StagingState.find_first_fit st (get_aligned_size size stagingBufferAlignment)
      st.regions = none)
    (hregs : st.regions = r0 :: rest)
    (hr0 : st.is_ready r0.handle = true) :
    st.is_ready (StagingState.loop_best st (r0 :: rest) 0 (0, r0)).2.handle = true ∧
    (st.get_next_free_offset size).1 =
      ⟨(StagingState.loop_best st (r0 :: rest) 0 (0, r0)).2.offset,
        (StagingState.loop_best st (r0 :: rest) 0 (0, r0)).2.size, none⟩ := by
  have hbready := loop_best_ready st (r0 :: rest) 0 (0, r0) hr0
  refine ⟨hbready, ?_⟩
  unfold StagingState.get_next_free_offset
  dsimp only
  rw [hens, hff]
  dsimp only
  rw [hregs]
  dsimp only
  rw [if_pos hbready]

lemma gnf_blocking (st : StagingState) (size : Nat)
    (hens : st.ensure_size ((get_aligned_size size stagingBufferAlignment) % U32) = st)
    (hnone : ∀ r ∈ st.regions, st.is_ready r.handle = false) :
    st.get_next_free_offset size =
      st.blocking_alloc (get_aligned_size size stagingBufferAlignment) := by
  have hff : StagingState.find_first_fit st
      (get_aligned_size size stagingBufferAlignment) st.regions = none := by
    cases hf : StagingState.find_first_fit st
        (get_aligned_size size stagingBufferAlignment) st.regions with
    | none => rfl
    | some p =>
      obtain ⟨hget, hready, -⟩ := find_first_fit_spec st _ st.regions p.1 p.2 (by
        rw [hf])
      have := hnone p.2 (List.get?_mem hget)
      rw [this] at hready
      simp at hready
  unfold StagingState.get_next_free_offset
  dsimp only
  rw [hens, hff]
  dsimp only
  cases hregs : st.regions with
  | nil => rfl
  | cons r0 rest =>
    rw [hregs] at hnone
    dsimp only
    rw [loop_best_no_update st (r0 :: rest) 0 (0, r0) hnone]
    dsimp only
    rw [if_neg (by simp [hnone r0 (List.mem_cons_self _ _)])]

/-- C6 (amended): `get_next_free_offset` (when the buffer needs no growth
for the request) returns the first ready region at least as large as the
aligned request, splitting off and retaining the excess; if no ready
region is large enough it returns the largest ready region whole — a
short allocation; and only when no region is ready at all does it wait
for every outstanding token before returning the region
`[0, min (aligned request) (buffer size))`: the full requested size
exactly when the request fits the buffer, and otherwise — e.g. an aligned
request above the 256 MB cap — a short buffer-sized region, contrary to
the frozen claim's unconditional "full requested size". -/
theorem c6_first_fit_largest_or_block (dm : Nat) (ops : List StagingOp)
    (size : Nat) (st : StagingState) (req : Nat)
    (hst : st = runStaging dm ops)
    (hreq : req = get_aligned_size size stagingBufferAlignment)
    (hens : st.ensure_size (req % U32) = st) :
    (∀ i r, StagingState.find_first_fit st req st.regions = some (i, r) →
        (st.get_next_free_offset size).1 = ⟨r.offset, req, none⟩ ∧
        st.regions.get? i = some r ∧ st.is_ready r.handle = true ∧ req ≤ r.size ∧
        (req < r.size →
          (⟨r.offset + req, r.size - req, none⟩ : MemoryRegionDescription) ∈
            (st.get_next_free_offset size).2.regions)) ∧
    (StagingState.find_first_fit st req st.regions = none →
      (∃ r ∈ st.regions, st.is_ready r.handle = true) →
      ∃ r ∈ st.regions, st.is_ready r.handle = true ∧
        (st.get_next_free_offset size).1.offset = r.offset ∧
        (st.get_next_free_offset size).1.size = r.size ∧ r.size < req ∧
        (∀ q ∈ st.regions, st.is_ready q.handle = true → q.size ≤ r.size)) ∧
    ((∀ r ∈ st.regions, st.is_ready r.handle = false) →
      (st.get_next_free_offset size).2.completed = st.next_token ∧
      (st.get_next_free_offset size).1 =
        ⟨0, min req st.staging_buffer_size, none⟩) := by
  subst hreq
  refine ⟨?_, ?_, ?_⟩
  · intro i r hff
    obtain ⟨hdesc, hregions⟩ := gnf_first_fit st size i r hens hff
    obtain ⟨hget, hready, hsz⟩ := find_first_fit_spec st _ st.regions i r hff
    refine ⟨hdesc, hget, hready, hsz, ?_⟩
    intro hlt
    rw [hregions, if_pos (by omega)]
    exact List.mem_cons_self _ _
  · intro hff hex
    subst hst
    have hs := runStaging_sinv dm ops
    obtain ⟨s1, s2, s3, s4, s5, s6⟩ := hs
    cases hregs : (runStaging dm ops).regions with
    | nil =>
      rw [hregs] at hex
      simp at hex
    | cons r0 rest =>
      rw [hregs] at hex s5
      have hr0 := head_ready_of_exists (runStaging dm ops) r0 rest s5 hex
      obtain ⟨hbready, hdesc⟩ := gnf_best (runStaging dm ops) size r0 rest hens hff
        hregs hr0
      have hbmem : (StagingState.loop_best (runStaging dm ops) (r0 :: rest) 0
          (0, r0)).2 ∈ r0 :: rest := by
        rcases loop_best_mem (runStaging dm ops) (r0 :: rest) 0 (0, r0) with hc | hc
        · rw [hc]
          exact List.mem_cons_self _ _
        · exact hc
      have hsmall := find_first_fit_none (runStaging dm ops) _ _ hff
      rw [hregs] at hsmall
      refine ⟨(StagingState.loop_best (runStaging dm ops) (r0 :: rest) 0 (0, r0)).2,
        hbmem, hbready, by rw [hdesc], by rw [hdesc], ?_, ?_⟩
      · exact hsmall _ hbmem hbready
      · intro q hq hqready
        exact loop_best_max (runStaging dm ops) (r0 :: rest) 0 (0, r0) q hq hqready
  · intro hnone
    have hbl := gnf_blocking st size hens hnone
    rw [hbl]
    unfold StagingState.blocking_alloc StagingState.wait_and_reset
    dsimp only
    refine ⟨rfl, ?_⟩
    by_cases hlt : get_aligned_size size stagingBufferAlignment < st.staging_buffer_size
    · rw [if_pos hlt]
      have heq : st.staging_buffer_size -
          (st.staging_buffer_size - get_aligned_size size stagingBufferAlignment) =
          min (get_aligned_size size stagingBufferAlignment)
            st.staging_buffer_size := by omega
      rw [heq]
    · rw [if_neg hlt]
      have heq : st.staging_buffer_size - 0 =
          min (get_aligned_size size stagingBufferAlignment)
            st.staging_buffer_size := by omega
      rw [heq]

/-- Witness for C6: a concrete first-fit allocation with remainder. -/
theorem c6_witness :
    StagingState.find_first_fit (runStaging 1073741824 [StagingOp.alloc 32])
      (get_aligned_size 32 stagingBufferAlignment)
      (runStaging 1073741824 [StagingOp.alloc 32]).regions =
        some (0, ⟨32, 16777184, none⟩) ∧
    ((runStaging 1073741824 [StagingOp.alloc 32]).get_next_free_offset 32).1 =
      ⟨32, get_aligned_size 32 stagingBufferAlignment, none⟩ := by
  have hens : (runStaging 1073741824 [StagingOp.alloc 32]).ensure_size
      ((get_aligned_size 32 stagingBufferAlignment) % U32) =
      runStaging 1073741824 [StagingOp.alloc 32] := by decide
  have hff : StagingState.find_first_fit (runStaging 1073741824 [StagingOp.alloc 32])
      (get_aligned_size 32 stagingBufferAlignment)
      (runStaging 1073741824 [StagingOp.alloc 32]).regions =
        some (0, ⟨32, 16777184, none⟩) := by decide
  have := (c6_first_fit_largest_or_block 1073741824 [StagingOp.alloc 32] 32
    (runStaging 1073741824 [StagingOp.alloc 32])
    (get_aligned_size 32 stagingBufferAlignment) rfl rfl hens).1 0
    ⟨32, 16777184, none⟩ hff
  exact ⟨hff, this.1⟩


/-- Refutation of C6 as frozen: run one 256 MB upload chunk so the
staging buffer sits at the 256 MB cap and its single region carries a
pending token (nothing is free), then request an aligned 300 MiB.
`ensure_size` keeps the buffer (it is already at the cap), nothing fits,
the allocator blocks in `wait_and_reset` — and returns the whole
268435456-byte buffer: a short region, not one of the full requested
size 314572800 the claim promises. -/
theorem c6_counterexample :
    (∀ r ∈ (runStaging 268435456 [StagingOp.alloc 268435456]).regions,
      (runStaging 268435456 [StagingOp.alloc 268435456]).is_ready r.handle
        = false) ∧
    (runStaging 268435456 [StagingOp.alloc 268435456]).ensure_size
        (get_aligned_size 314572800 stagingBufferAlignment % U32) =
      runStaging 268435456 [StagingOp.alloc 268435456] ∧
    get_aligned_size 314572800 stagingBufferAlignment = 314572800 ∧
    ((runStaging 268435456 [StagingOp.alloc 268435456]).get_next_free_offset
        314572800).1.size = 268435456 ∧
    ((runStaging 268435456 [StagingOp.alloc 268435456]).get_next_free_offset
        314572800).1.size ≠
      get_aligned_size 314572800 stagingBufferAlignment := by
  decide

/-! ## C7: `ensure_size` and the device maximum -/

/-- C7 (refuted): `StagingAllocator::ensure_size` clamps the request only
to the 256 MB `max_staging_buffer_size` constant; the device-derived
`max_buffer_size` member computed in the constructor is never read again.
On a device whose maximum allocation size is 64 MiB, a 100 MiB request
therefore produces a 100 MiB staging buffer, strictly above the
`max_buffer_size` bound the claim promises. -/
theorem c7_ensure_size_ignores_device_max :
    ((StagingState.mkStaging 67108864).ensure_size 104857600).staging_buffer_size
        = 104857600 ∧
    ((StagingState.mkStaging 67108864).ensure_size 104857600).max_buffer_size
        = 67108864 ∧
    ((StagingState.mkStaging 67108864).ensure_size 104857600).max_buffer_size <
      ((StagingState.mkStaging 67108864).ensure_size 104857600).staging_buffer_size := by
  decide

/-! ## C10: uploads to host-mapped buffers -/

/-- A `VulkanDeviceBuffer` as `StagingAllocator::upload` sees it: whether
`allocation_info.pMappedData` is non-null, and the bytes visible through
the mapping. -/
structure DeviceBuffer where
  mapped : Bool
  contents : List Nat
deriving DecidableEq, Repr

/-- `VulkanDeviceBuffer::upload(data, offset)`: a memcpy of
`data.size_bytes()` bytes from `data.data() + offset` to the start of the
mapping (a byte read past the end of the span is modelled as 0). -/
def DeviceBuffer.upload (b : DeviceBuffer) (data : List Nat) (offset : Nat) :
    DeviceBuffer :=
  { b with contents :=
      (List.range data.length).map (fun j => data.getD (offset + j) 0) ++
        b.contents.drop data.length }

namespace StagingState

/-- The staged chunk loop of `StagingAllocator::upload` (the non-mapped
path): repeatedly obtain a region, record one GPU copy command into it,
submit (receiving the next FIFO token) and push the region descriptor
back carrying that token.  The first argument is fuel bounding the
iteration count (the C++ loop runs until `size` reaches 0); the last
result counts the GPU copy commands recorded. -/
def upload_chunks : Nat → StagingState → Nat → Nat → StagingState × Nat
  | 0, st, _, copies => (st, copies)
  | fuel + 1, st, size, copies =>
    if size = 0 then (st, copies)
    else
      let p := st.get_next_free_offset size
      let chunk := min size p.1.size
      let st1 := { p.2 with
        regions := p.2.regions ++ [⟨p.1.offset, p.1.size, some p.2.next_token⟩]
        next_token := p.2.next_token + 1 }
      upload_chunks fuel st1 (size - chunk) (copies + 1)

/-- `StagingAllocator::upload(buffer, dstOffset, size, data)`: when the
destination is host-mapped, copy directly through the mapping (the source
span covers `size` bytes of `data`) and return at once; otherwise run the
staged chunk loop.  The `Nat` component of the result counts recorded GPU
copy commands. -/
def upload (st : StagingState) (b : DeviceBuffer) (dstOffset size : Nat)
    (data : List Nat) : DeviceBuffer × StagingState × Nat :=
  if b.mapped = true then
    (b.upload (data.take size) dstOffset, st, 0)
  else
    let p := upload_chunks (size + 1) st size 0
    (b, p.1, p.2)

end StagingState

/-- C10: on a host-mapped destination buffer, `StagingAllocator::upload`
writes the bytes directly through the mapping (one memcpy sourced at
offset `dstOffset` into the span) and returns immediately: the allocator
state is untouched — the region list is identical, no token is issued, and
no GPU copy command is recorded. -/
theorem c10_mapped_upload_leaves_allocator_unchanged
    (st : StagingState) (b : DeviceBuffer) (dstOffset size : Nat)
    (data : List Nat) (h : b.mapped = true) :
    (st.upload b dstOffset size data).2.1 = st ∧
    (st.upload b dstOffset size data).2.1.regions = st.regions ∧
    (st.upload b dstOffset size data).2.1.next_token = st.next_token ∧
    (st.upload b dstOffset size data).2.2 = 0 ∧
    (st.upload b dstOffset size data).1 = b.upload (data.take size) dstOffset ∧
    (∀ j, j < min size data.length →
      (st.upload b dstOffset size data).1.contents.getD j 0 =
        (data.take size).getD (dstOffset + j) 0) := by
  unfold StagingState.upload
  rw [if_pos h]
  refine ⟨rfl, rfl, rfl, rfl, rfl, ?_⟩
  intro j hj
  unfold DeviceBuffer.upload
  dsimp only
  have hjlen : j < ((List.range (data.take size).length).map
      (fun i => (data.take size).getD (dstOffset + i) 0)).length := by
    simp [List.length_take]
    omega
  rw [List.getD_eq_getElem?_getD, List.getElem?_append_left hjlen, List.getElem?_map,
    List.getElem?_range (by simp [List.length_take]; omega)]
  simp

/-- Witness for C10: a mapped four-byte buffer, a two-byte upload at
destination offset 1. -/
theorem c10_witness :
    ((StagingState.mkStaging 1024).upload ⟨true, [7, 7, 7, 7]⟩ 1 2
        [1, 2, 3, 4]).2.1 = StagingState.mkStaging 1024 ∧
    ((StagingState.mkStaging 1024).upload ⟨true, [7, 7, 7, 7]⟩ 1 2
        [1, 2, 3, 4]).2.1.regions = (StagingState.mkStaging 1024).regions ∧
    ((StagingState.mkStaging 1024).upload ⟨true, [7, 7, 7, 7]⟩ 1 2
        [1, 2, 3, 4]).2.1.next_token = (StagingState.mkStaging 1024).next_token ∧
    ((StagingState.mkStaging 1024).upload ⟨true, [7, 7, 7, 7]⟩ 1 2
        [1, 2, 3, 4]).2.2 = 0 ∧
    ((StagingState.mkStaging 1024).upload ⟨true, [7, 7, 7, 7]⟩ 1 2
        [1, 2, 3, 4]).1 =
      DeviceBuffer.upload ⟨true, [7, 7, 7, 7]⟩ (List.take 2 [1, 2, 3, 4]) 1 ∧
    (∀ j, j < min 2 (List.length [1, 2, 3, 4]) →
      ((StagingState.mkStaging 1024).upload ⟨true, [7, 7, 7, 7]⟩ 1 2
          [1, 2, 3, 4]).1.contents.getD j 0 =
        (List.take 2 [1, 2, 3, 4]).getD (1 + j) 0) :=
  c10_mapped_upload_leaves_allocator_unchanged (StagingState.mkStaging 1024)
    ⟨true, [7, 7, 7, 7]⟩ 1 2 [1, 2, 3, 4] rfl


/-! ## C4: bindless descriptor capacity

The capacity-growth function `Bindless::next_pow2` and the state of
`sync_on_frame_acquire` over the `DescriptorArrays`. -/

/-- One or-shift step of the `next_pow2` bit smear. -/
def orShift (x n : Nat) : Nat := x ||| (x >>> n)

/-- `Bindless::next_pow2`: 1 for `v <= 1`, otherwise the classic
decrement / or-shift cascade / increment on a `uint32_t` (the final
increment wraps at `2^32`). -/
def next_pow2 (v : Nat) : Nat :=
  if v ≤ 1 then 1
  else (orShift (orShift (orShift (orShift (orShift (v - 1) 1) 2) 4) 8) 16 + 1) % U32

lemma orShift_testBit (x n i : Nat) :
    (orShift x n).testBit i = (x.testBit i || x.testBit (n + i)) := by
  rw [orShift, Nat.testBit_or, Nat.testBit_shiftRight x]

/-- Doubling step of the smear: if every set bit of `x` is a set bit of
`x0` at distance below `n`, the same holds of `orShift x n` at distance
below `2 * n`. -/
lemma orShift_span (x0 x n : Nat)
    (h : ∀ i, x.testBit i = true ↔ ∃ k, k < n ∧ x0.testBit (i + k) = true) :
    ∀ i, (orShift x n).testBit i = true ↔
      ∃ k, k < 2 * n ∧ x0.testBit (i + k) = true := by
  intro i
  rw [orShift_testBit, Bool.or_eq_true, h i, h (n + i)]
  constructor
  · rintro (⟨k, hk, hb⟩ | ⟨k, hk, hb⟩)
    · exact ⟨k, by omega, hb⟩
    · refine ⟨n + k, by omega, ?_⟩
      rw [show i + (n + k) = n + i + k by omega]
      exact hb
  · rintro ⟨k, hk, hb⟩
    by_cases hkn : k < n
    · exact Or.inl ⟨k, hkn, hb⟩
    · refine Or.inr ⟨k - n, by omega, ?_⟩
      rw [show n + i + (k - n) = i + k by omega]
      exact hb

/-- The five-step cascade smears every set bit of `x` across the 32
positions below it. -/
lemma smear_testBit (x : Nat) :
    ∀ i, (orShift (orShift (orShift (orShift (orShift x 1) 2) 4) 8) 16).testBit i
        = true ↔ ∃ k, k < 32 ∧ x.testBit (i + k) = true := by
  have h1 : ∀ i, x.testBit i = true ↔ ∃ k, k < 1 ∧ x.testBit (i + k) = true := by
    intro i
    constructor
    · intro hb
      exact ⟨0, by omega, by simpa using hb⟩
    · rintro ⟨k, hk, hb⟩
      have hk0 : k = 0 := by omega
      subst hk0
      simpa using hb
  have h2 := orShift_span x x 1 h1
  norm_num at h2
  have h4 := orShift_span x (orShift x 1) 2 h2
  norm_num at h4
  have h8 := orShift_span x (orShift (orShift x 1) 2) 4 h4
  norm_num at h8
  have h16 := orShift_span x (orShift (orShift (orShift x 1) 2) 4) 8 h8
  norm_num at h16
  have h32 := orShift_span x (orShift (orShift (orShift (orShift x 1) 2) 4) 8) 16 h16
  norm_num at h32
  exact h32

/-- The highest bit of a positive number is set. -/
lemma testBit_size_pred {x : Nat} (hx : 0 < x) :
    x.testBit (x.size - 1) = true := by
  have hs : 0 < x.size := Nat.size_pos.mpr hx
  have h1 : 2 ^ (x.size - 1) ≤ x := Nat.lt_size.mp (by omega)
  have h2 : x < 2 ^ x.size := Nat.lt_size_self x
  have h3 : 2 ^ x.size = 2 ^ (x.size - 1) * 2 := by
    rw [← Nat.pow_succ]
    congr 1
    omega
  rw [h3] at h2
  have hdiv : x / 2 ^ (x.size - 1) = 1 := by
    apply Nat.div_eq_of_lt_le
    · omega
    · omega
  rw [Nat.testBit_to_div_mod, hdiv]
  decide

/-- Bits at or above the size of a number are clear. -/
lemma testBit_eq_false_of_size_le {x i : Nat} (h : x.size ≤ i) :
    x.testBit i = false := by
  apply Nat.testBit_lt_two_pow
  calc x < 2 ^ x.size := Nat.lt_size_self x
    _ ≤ 2 ^ i := Nat.pow_le_pow_right (by omega) h

/-- The smear of a positive 32-bit number is the all-ones mask up to its
size. -/
lemma smear_eq_pow_size {x : Nat} (hx : 0 < x) (hx32 : x < 2 ^ 32) :
    orShift (orShift (orShift (orShift (orShift x 1) 2) 4) 8) 16 =
      2 ^ x.size - 1 := by
  have hsize : x.size ≤ 32 := Nat.size_le.mpr hx32
  apply Nat.eq_of_testBit_eq
  intro i
  rw [Nat.testBit_two_pow_sub_one]
  by_cases hi : i < x.size
  · have hset : (orShift (orShift (orShift (orShift (orShift x 1) 2) 4) 8)
        16).testBit i = true := by
      rw [smear_testBit]
      refine ⟨x.size - 1 - i, by omega, ?_⟩
      rw [show i + (x.size - 1 - i) = x.size - 1 by omega]
      exact testBit_size_pred hx
    rw [hset]
    simp [hi]
  · have hclear : ¬ (orShift (orShift (orShift (orShift (orShift x 1) 2) 4) 8)
        16).testBit i = true := by
      rw [smear_testBit]
      rintro ⟨k, hk, hb⟩
      rw [testBit_eq_false_of_size_le (by omega)] at hb
      exact absurd hb (by simp)
    rw [Bool.not_eq_true] at hclear
    rw [hclear]
    simp [hi]

/-- Closed form of `next_pow2` on `[1, 2^31]`: the power of two whose
exponent is the bit size of `v - 1`. -/
lemma next_pow2_eq_pow (v : Nat) (h1 : 1 ≤ v) (h31 : v ≤ 2 ^ 31) :
    next_pow2 v = 2 ^ (v - 1).size := by
  by_cases hv : v ≤ 1
  · have hv1 : v = 1 := by omega
    subst hv1
    simp [next_pow2, Nat.size_zero]
  · rw [next_pow2, if_neg hv]
    have hpos : 0 < v - 1 := by omega
    have hltpow : (2:Nat) ^ 31 < 2 ^ 32 := by norm_num
    have hlt : v - 1 < 2 ^ 32 := by omega
    rw [smear_eq_pow_size hpos hlt]
    have hsz : (v - 1).size ≤ 31 := Nat.size_le.mpr (by omega)
    have hpow : 2 ^ (v - 1).size ≤ 2 ^ 31 := Nat.pow_le_pow_right (by omega) hsz
    have hppos : 0 < 2 ^ (v - 1).size := Nat.two_pow_pos _
    have hU : (2:Nat) ^ 31 < U32 := by norm_num [U32]
    have hstep : 2 ^ (v - 1).size - 1 + 1 = 2 ^ (v - 1).size := by omega
    rw [hstep]
    exact Nat.mod_eq_of_lt (by omega)

/-- `next_pow2` dominates its argument on `[1, 2^31]`. -/
lemma le_next_pow2 (v : Nat) (h1 : 1 ≤ v) (h31 : v ≤ 2 ^ 31) :
    v ≤ next_pow2 v := by
  rw [next_pow2_eq_pow v h1 h31]
  have := Nat.lt_size_self (v - 1)
  omega

/-- `next_pow2 v` is the least power of two at least `v`. -/
lemma next_pow2_le_pow (v m : Nat) (h1 : 1 ≤ v) (h31 : v ≤ 2 ^ 31)
    (h : v ≤ 2 ^ m) : next_pow2 v ≤ 2 ^ m := by
  rw [next_pow2_eq_pow v h1 h31]
  exact Nat.pow_le_pow_right (by omega) (Nat.size_le.mpr (by omega))

/-- Powers of two up to `2^31` are fixed points of `next_pow2`. -/
lemma next_pow2_pow (k : Nat) (hk : k ≤ 31) : next_pow2 (2 ^ k) = 2 ^ k := by
  have h1 : 1 ≤ 2 ^ k := Nat.one_le_two_pow
  have h31 : (2:Nat) ^ k ≤ 2 ^ 31 := Nat.pow_le_pow_right (by omega) hk
  have hle := le_next_pow2 (2 ^ k) h1 h31
  have hge := next_pow2_le_pow (2 ^ k) k h1 h31 (le_refl _)
  omega

/-- `next_pow2` on a maximum with a power of two. -/
lemma next_pow2_max_pow (k n : Nat) (hk : k ≤ 31) (hn : n ≤ 2 ^ 31) :
    next_pow2 (max (2 ^ k) n) = max (2 ^ k) (next_pow2 n) := by
  have hc1 : (1:Nat) ≤ 2 ^ k := Nat.one_le_two_pow
  by_cases hcn : n ≤ 2 ^ k
  · have hnp2_le : next_pow2 n ≤ 2 ^ k := by
      rcases Nat.eq_zero_or_pos n with h0 | hpos
      · subst h0
        exact hc1
      · exact next_pow2_le_pow n k hpos (by omega) hcn
    rw [Nat.max_eq_left hcn, next_pow2_pow k hk, Nat.max_eq_left hnp2_le]
  · have h1n : 1 ≤ n := by omega
    rw [Nat.max_eq_right (by omega)]
    have hge : 2 ^ k ≤ next_pow2 n :=
      le_trans (by omega) (le_next_pow2 n h1n hn)
    rw [Nat.max_eq_right hge]

/-- `DescriptorArrays`: the Vulkan handles abstracted to "non-null"
flags, plus the two capacities (both default 16 in the source). -/
structure DescriptorArrays where
  layout : Bool := false
  pool : Bool := false
  set : Bool := false
  sampled_capacity : Nat := 16
  storage_capacity : Nat := 16
deriving DecidableEq, Repr

/-- `Bindless::ensure_layout`: recreate the layout (recording the new
capacities) exactly when there is none yet or a requested capacity
exceeds the recorded one; the flag reports whether it was recreated. -/
def ensure_layout (d : DescriptorArrays) (sampled_cap storage_cap : Nat) :
    DescriptorArrays × Bool :=
  if d.layout = true ∧ sampled_cap ≤ d.sampled_capacity ∧
      storage_cap ≤ d.storage_capacity then
    (d, false)
  else
    ({ d with
        layout := true
        sampled_capacity := sampled_cap
        storage_capacity := storage_cap }, true)

lemma ensure_layout_kept (d : DescriptorArrays) (s t : Nat)
    (h : d.layout = true ∧ s ≤ d.sampled_capacity ∧ t ≤ d.storage_capacity) :
    ensure_layout d s t = (d, false) := by
  unfold ensure_layout
  rw [if_pos h]

lemma ensure_layout_new (d : DescriptorArrays) (s t : Nat)
    (h : ¬(d.layout = true ∧ s ≤ d.sampled_capacity ∧ t ≤ d.storage_capacity)) :
    ensure_layout d s t =
      ({ d with
          layout := true
          sampled_capacity := s
          storage_capacity := t }, true) := by
  unfold ensure_layout
  rw [if_neg h]

/-- `Bindless::allocate_set`: replace the pool and the set, recording the
capacities. -/
def allocate_set (d : DescriptorArrays) (sampled_cap storage_cap : Nat) :
    DescriptorArrays :=
  { d with
    pool := true
    set := true
    sampled_capacity := sampled_cap
    storage_capacity := storage_cap }

/-- What one `sync_on_frame_acquire` did: whether the layout was
recreated, whether the set was reallocated, and whether `write_all`
rewrote the descriptors (it writes exactly when the texture pool is
non-empty). -/
structure SyncEvents where
  layout_recreated : Bool
  set_allocated : Bool
  wrote : Bool
deriving DecidableEq, Repr

/-- `Bindless::sync_on_frame_acquire` over the descriptor arrays, the
`needs_descriptor_update` flag and the texture-pool size: when the flag
is set, take `n = max(max(sampled_capacity, storage_capacity),
textures.size())` and `cap = max(next_pow2(n), 1)`, ensure the layout at
`cap`, allocate the set only when there is none or a recorded capacity is
still short of `cap`, run `write_all`, and clear the flag. -/
def sync_on_frame_acquire (d : DescriptorArrays) (dirty : Bool)
    (texture_count : Nat) : DescriptorArrays × Bool × SyncEvents :=
  if dirty = false then (d, dirty, ⟨false, false, false⟩)
  else
    let n := max (max d.sampled_capacity d.storage_capacity) texture_count
    let cap := max (next_pow2 n) 1
    let p := ensure_layout d cap cap
    let d1 := p.1
    if d1.set = false ∨ d1.sampled_capacity < cap ∨ d1.storage_capacity < cap then
      (allocate_set d1 cap cap, false, ⟨p.2, true, decide (1 ≤ texture_count)⟩)
    else
      (d1, false, ⟨p.2, false, decide (1 ≤ texture_count)⟩)

/-- Refutation of C4 as stated: on a fresh context (default
`DescriptorArrays`, capacities 16) holding 5 textures, one dirty sync
leaves the sampled capacity at 16, not `next_pow2 5 = 8` — the capacity
argument of `next_pow2` is the maximum of the recorded capacities and the
pool size, never the pool size alone. -/
theorem c4_counterexample :
    (sync_on_frame_acquire {} true 5).1.sampled_capacity = 16 ∧
    next_pow2 5 = 8 ∧
    (sync_on_frame_acquire {} true 5).1.sampled_capacity ≠ next_pow2 5 := by
  decide

/-- C4 (amended): from a steady state (layout and set present, both
capacities the power of two `2^k`), a dirty sync with `n` textures sets
both capacities to `max (2^k) (next_pow2 n)`: the capacity never
shrinks (so a capacity used for fewer elements is not revisited), it
dominates the pool size, `next_pow2 n` is the least power of two at least
`n`, the layout is recreated exactly when `next_pow2 n` outgrows the old
capacity, the set is never reallocated while one exists, descriptors are
rewritten exactly when the pool is non-empty, and the dirty flag is
cleared. -/
theorem c4_sync_capacity (k n : Nat) (d : DescriptorArrays)
    (hk : k ≤ 31) (hn : n ≤ 2 ^ 31)
    (hl : d.layout = true) (hs : d.set = true)
    (h1 : d.sampled_capacity = 2 ^ k) (h2 : d.storage_capacity = 2 ^ k) :
    (sync_on_frame_acquire d true n).1.sampled_capacity
        = max (2 ^ k) (next_pow2 n) ∧
    (sync_on_frame_acquire d true n).1.storage_capacity
        = max (2 ^ k) (next_pow2 n) ∧
    2 ^ k ≤ (sync_on_frame_acquire d true n).1.sampled_capacity ∧
    n ≤ (sync_on_frame_acquire d true n).1.sampled_capacity ∧
    (∀ m, n ≤ 2 ^ m → next_pow2 n ≤ 2 ^ m) ∧
    ((sync_on_frame_acquire d true n).2.2.layout_recreated = true ↔
      2 ^ k < next_pow2 n) ∧
    (sync_on_frame_acquire d true n).2.2.set_allocated = false ∧
    ((sync_on_frame_acquire d true n).2.2.wrote = true ↔ 1 ≤ n) ∧
    (sync_on_frame_acquire d true n).2.1 = false := by
  have hc1 : (1:Nat) ≤ 2 ^ k := Nat.one_le_two_pow
  have hnp2_le : ∀ m, n ≤ 2 ^ m → next_pow2 n ≤ 2 ^ m := by
    intro m hm
    rcases Nat.eq_zero_or_pos n with h0 | hpos
    · subst h0
      exact Nat.one_le_two_pow
    · exact next_pow2_le_pow n m hpos hn hm
  have hnC : n ≤ max (2 ^ k) (next_pow2 n) := by
    rcases Nat.eq_zero_or_pos n with h0 | hpos
    · omega
    · exact le_trans (le_next_pow2 n hpos hn) (Nat.le_max_right _ _)
  have hC : max (next_pow2 (max (max d.sampled_capacity d.storage_capacity) n)) 1
      = max (2 ^ k) (next_pow2 n) := by
    rw [h1, h2, Nat.max_self, next_pow2_max_pow k n hk hn]
    exact Nat.max_eq_left (le_trans hc1 (Nat.le_max_left _ _))
  unfold sync_on_frame_acquire
  rw [if_neg (by simp)]
  dsimp only
  rw [hC]
  by_cases hcase : next_pow2 n ≤ 2 ^ k
  · have hCeq : max (2 ^ k) (next_pow2 n) = 2 ^ k := Nat.max_eq_left hcase
    rw [hCeq]
    have hkept : ensure_layout d (2 ^ k) (2 ^ k) = (d, false) :=
      ensure_layout_kept d (2 ^ k) (2 ^ k) ⟨hl, by omega, by omega⟩
    rw [hkept]
    dsimp only
    have hno : ¬(d.set = false ∨ d.sampled_capacity < 2 ^ k ∨
        d.storage_capacity < 2 ^ k) := by
      rintro (hbad | hbad | hbad)
      · rw [hs] at hbad
        exact absurd hbad (by simp)
      · omega
      · omega
    rw [if_neg hno]
    refine ⟨h1, h2, ?_, ?_, hnp2_le, ?_, rfl, by simp, rfl⟩
    · show 2 ^ k ≤ d.sampled_capacity
      omega
    · show n ≤ d.sampled_capacity
      omega
    · constructor
      · intro hbad
        exact absurd hbad (by simp)
      · intro hbad
        exact absurd hbad (by omega)
  · have hCeq : max (2 ^ k) (next_pow2 n) = next_pow2 n :=
      Nat.max_eq_right (by omega)
    rw [hCeq]
    have hnew : ensure_layout d (next_pow2 n) (next_pow2 n) =
        ({ d with
            layout := true
            sampled_capacity := next_pow2 n
            storage_capacity := next_pow2 n }, true) :=
      ensure_layout_new d (next_pow2 n) (next_pow2 n) (by
        rintro ⟨-, hbad, -⟩
        omega)
    rw [hnew]
    dsimp only
    have hno : ¬(d.set = false ∨ next_pow2 n < next_pow2 n ∨
        next_pow2 n < next_pow2 n) := by
      rintro (hbad | hbad | hbad)
      · rw [hs] at hbad
        exact absurd hbad (by simp)
      · omega
      · omega
    rw [if_neg hno]
    refine ⟨rfl, rfl, ?_, ?_, hnp2_le, ?_, rfl, by simp, rfl⟩
    · show 2 ^ k ≤ next_pow2 n
      omega
    · show n ≤ next_pow2 n
      omega
    · constructor
      · intro _
        omega
      · intro _
        rfl

/-- Witness for C4: capacities 16 (`2^4`), 17 textures: both capacities
become 32, the layout is recreated, the set is kept. -/
theorem c4_witness :
    (sync_on_frame_acquire ⟨true, true, true, 16, 16⟩ true 17).1.sampled_capacity
        = max (2 ^ 4) (next_pow2 17) ∧
    (sync_on_frame_acquire ⟨true, true, true, 16, 16⟩ true 17).1.storage_capacity
        = max (2 ^ 4) (next_pow2 17) ∧
    2 ^ 4 ≤ (sync_on_frame_acquire ⟨true, true, true, 16, 16⟩ true
        17).1.sampled_capacity ∧
    17 ≤ (sync_on_frame_acquire ⟨true, true, true, 16, 16⟩ true
        17).1.sampled_capacity ∧
    (∀ m, 17 ≤ 2 ^ m → next_pow2 17 ≤ 2 ^ m) ∧
    ((sync_on_frame_acquire ⟨true, true, true, 16, 16⟩ true
        17).2.2.layout_recreated = true ↔ 2 ^ 4 < next_pow2 17) ∧
    (sync_on_frame_acquire ⟨true, true, true, 16, 16⟩ true
        17).2.2.set_allocated = false ∧
    ((sync_on_frame_acquire ⟨true, true, true, 16, 16⟩ true
        17).2.2.wrote = true ↔ 1 ≤ 17) ∧
    (sync_on_frame_acquire ⟨true, true, true, 16, 16⟩ true 17).2.1 = false :=
  c4_sync_capacity 4 17 ⟨true, true, true, 16, 16⟩ (by decide) (by decide)
    rfl rfl rfl rfl

end SV
